import Mathlib

/-!
Verification of the UniTest client reconciliation logic, a shallow
embedding of the code in src/pages/[...slug].js: a model of JavaScript
values, the response normalizer, the status classifier, the commentary
formatter, the two polling engines and the chat timeline builder, with
theorems checking the specification claims against those definitions.
-/

/-- Model of a JavaScript/JSON value. Numbers are modelled as integers
(none of the functions under study performs float arithmetic); object
fields are an ordered association list, mirroring JS insertion order. -/
inductive JSValue where
  | null
  | undefined
  | bool (b : Bool)
  | num (n : Int)
  | str (s : String)
  | arr (elems : List JSValue)
  | obj (fields : List (String × JSValue))

/-- JS truthiness: null, undefined, false, 0 and the empty string are
falsy; arrays and objects are always truthy. -/
def truthy : JSValue → Bool
  | .null => false
  | .undefined => false
  | .bool b => b
  | .num n => n != 0
  | .str s => s != ""
  | .arr _ => true
  | .obj _ => true

/-- Whether the JS test typeof v === "object" holds: true for null,
arrays and objects. -/
def typeofObject : JSValue → Bool
  | .null => true
  | .arr _ => true
  | .obj _ => true
  | _ => false

/-- Array.isArray. -/
def isArray : JSValue → Bool
  | .arr _ => true
  | _ => false

/-- First-match lookup in an object field list. -/
def lookupField (fields : List (String × JSValue)) (k : String) : Option JSValue :=
  (fields.find? (fun p => p.1 == k)).map (fun p => p.2)

/-- Index lookup on an array under a decimal property key, starting at
index i; undefined when no index matches. The non-enumerable length
property of JS arrays is not modelled (no studied function reads it). -/
def arrIndex : List JSValue → Nat → String → JSValue
  | [], _, _ => .undefined
  | x :: rest, i, k => if toString i == k then x else arrIndex rest (i + 1) k

/-- Property access v[k]: lookup on objects, decimal index lookup on
arrays, undefined on primitives (JS boxes primitives, yielding undefined
for the properties read by this code). -/
def getField (v : JSValue) (k : String) : JSValue :=
  match v with
  | .obj fields => (lookupField fields k).getD .undefined
  | .arr xs => arrIndex xs 0 k
  | _ => .undefined

/-- Write key k with value v into an object field list: when the key is
present every entry under it is overwritten in place (JS object literals
keep the first position of a repeated key), otherwise the pair is
appended. -/
def setField (fields : List (String × JSValue)) (k : String) (v : JSValue) :
    List (String × JSValue) :=
  if fields.any (fun p => p.1 == k) then
    fields.map (fun p => if p.1 == k then (k, v) else p)
  else fields ++ [(k, v)]

/-- The fields enumerated by an array spread: elements keyed by their
decimal index, starting at i. -/
def enumFields : List JSValue → Nat → List (String × JSValue)
  | [], _ => []
  | x :: rest, i => (toString i, x) :: enumFields rest (i + 1)

/-- Enumerable own fields copied by an object spread: object fields as
they are, array elements under decimal index keys, nothing for
primitives. -/
def spreadFields : JSValue → List (String × JSValue)
  | .obj fields => fields
  | .arr xs => enumFields xs 0
  | _ => []

/-- The String(x) conversion for primitive values. The recursive
conversion of arrays and objects (element join, "[object Object]") is
abstracted to fixed placeholders: the only caller is isTerminal and
every claim about it concerns string, null or undefined statuses. -/
def jsToString : JSValue → String
  | .null => "null"
  | .undefined => "undefined"
  | .bool true => "true"
  | .bool false => "false"
  | .num n => toString n
  | .str s => s
  | .arr _ => "[object]"
  | .obj _ => "[object Object]"

/-- The toLowerCase conversion, mapping each character through the ASCII
lowercasing of Char.toLower (the JS function also folds a few non-ASCII
letters; none of the compared keywords contains such a character, and on
such inputs both conversions land outside every keyword set compared in
this code). -/
def lowerStr (s : String) : String := String.mk (s.data.map Char.toLower)

/-- The TERMINAL_STATUSES set from the source. -/
def TERMINAL_STATUSES : List String := ["completed", "failed", "cancelled"]

/-- isTerminal(status) from the source: false for falsy statuses, else
membership of the lowercased string form in TERMINAL_STATUSES. -/
def isTerminal (status : JSValue) : Bool :=
  if !truthy status then false
  else TERMINAL_STATUSES.contains (lowerStr (jsToString status))

/-- normalizeResponse(resp) from the source: null for null and
non-objects, otherwise the spread copy of the input with segments and
output_content forced to arrays (kept when already arrays, replaced by
the empty array otherwise). -/
def normalizeResponse (resp : JSValue) : JSValue :=
  if !truthy resp || !typeofObject resp then .null
  else
    let segments := if isArray (getField resp "segments") then getField resp "segments"
      else .arr []
    let output := if isArray (getField resp "output_content") then getField resp "output_content"
      else .arr []
    .obj (setField (setField (spreadFields resp) "segments" segments) "output_content" output)

/-- C5: isTerminal returns true on a string status exactly when its
lowercased form is completed, failed or cancelled, and returns false on
null, undefined and the empty string. -/
theorem isTerminal_characterization :
    (∀ s : String, isTerminal (.str s) = true ↔
      (lowerStr s = "completed" ∨ lowerStr s = "failed" ∨ lowerStr s = "cancelled"))
    ∧ isTerminal .null = false ∧ isTerminal .undefined = false
    ∧ isTerminal (.str "") = false := by
  refine ⟨?_, by decide, by decide, by decide⟩
  intro s
  by_cases h : s = ""
  · subst h
    constructor
    · intro hfalse
      exact absurd hfalse (by decide)
    · intro hor
      exfalso
      rcases hor with h1 | h1 | h1 <;> exact absurd h1 (by decide)
  · simp [isTerminal, truthy, jsToString, TERMINAL_STATUSES, h, List.contains_eq_any_beq,
      or_assoc]

theorem lookupField_cons (a : String) (b : JSValue) (l : List (String × JSValue)) (k : String) :
    lookupField ((a, b) :: l) k = if a == k then some b else lookupField l k := by
  by_cases h : (a == k) = true <;> simp [lookupField, List.find?, h]

theorem lookup_replace_same (l : List (String × JSValue)) (k : String) (v : JSValue)
    (h : l.any (fun p => p.1 == k) = true) :
    lookupField (l.map (fun p => if p.1 == k then (k, v) else p)) k = some v := by
  induction l with
  | nil => simp at h
  | cons hd tl ih =>
    cases hhd : (hd.1 == k) with
    | true => simp [lookupField, List.find?, hhd]
    | false =>
      have htl : tl.any (fun p => p.1 == k) = true := by
        simpa [List.any_cons, hhd] using h
      rw [List.map_cons, show (if hd.1 == k then (k, v) else hd) = hd from by simp [hhd],
        show (hd :: tl.map (fun p => if p.1 == k then (k, v) else p)) =
          ((hd.1, hd.2) :: tl.map (fun p => if p.1 == k then (k, v) else p)) from by simp,
        lookupField_cons, if_neg (by simp [hhd])]
      exact ih htl

theorem lookup_replace_ne (l : List (String × JSValue)) (k k' : String) (v : JSValue)
    (h : (k' == k) = false) :
    lookupField (l.map (fun p => if p.1 == k then (k, v) else p)) k' = lookupField l k' := by
  induction l with
  | nil => rfl
  | cons hd tl ih =>
    cases hhd : (hd.1 == k) with
    | true =>
      have hk : hd.1 = k := by
        exact beq_iff_eq.mp hhd
      have hk1 : (k == k') = false := by
        cases hkk : (k == k') with
        | false => rfl
        | true =>
          exfalso
          have : k = k' := beq_iff_eq.mp hkk
          rw [this] at h
          simp at h
      rw [List.map_cons, show (if hd.1 == k then (k, v) else hd) = (k, v) from by simp [hhd],
        lookupField_cons, if_neg (by simp [hk1]),
        show (hd :: tl : List (String × JSValue)) = ((hd.1, hd.2) :: tl) from by simp,
        lookupField_cons, if_neg (by simp [hk, hk1]), ih]
    | false =>
      rw [List.map_cons, show (if hd.1 == k then (k, v) else hd) = hd from by simp [hhd],
        show (hd :: tl.map (fun p => if p.1 == k then (k, v) else p)) =
          ((hd.1, hd.2) :: tl.map (fun p => if p.1 == k then (k, v) else p)) from by simp,
        lookupField_cons,
        show (hd :: tl : List (String × JSValue)) = ((hd.1, hd.2) :: tl) from by simp,
        lookupField_cons, ih]

theorem lookup_append_absent (l : List (String × JSValue)) (k : String) (v : JSValue)
    (h : l.any (fun p => p.1 == k) = false) :
    lookupField (l ++ [(k, v)]) k = some v := by
  induction l with
  | nil => simp [lookupField, List.find?]
  | cons hd tl ih =>
    have hhd : (hd.1 == k) = false := by
      cases hc : (hd.1 == k) with
      | false => rfl
      | true => simp [List.any_cons, hc] at h
    have htl : tl.any (fun p => p.1 == k) = false := by
      cases hc : tl.any (fun p => p.1 == k) with
      | false => rfl
      | true => simp [List.any_cons, hc] at h
    rw [List.cons_append,
      show (hd :: (tl ++ [(k, v)])) = ((hd.1, hd.2) :: (tl ++ [(k, v)])) from by simp,
      lookupField_cons, if_neg (by simp [hhd])]
    exact ih htl

theorem lookup_append_ne (l : List (String × JSValue)) (k k' : String) (v : JSValue)
    (h : (k' == k) = false) :
    lookupField (l ++ [(k, v)]) k' = lookupField l k' := by
  induction l with
  | nil =>
    have : (k == k') = false := by
      cases hc : (k == k') with
      | false => rfl
      | true =>
        exfalso
        have := beq_iff_eq.mp hc
        rw [this] at h
        simp at h
    simp [lookupField, List.find?, this]
  | cons hd tl ih =>
    rw [List.cons_append,
      show (hd :: (tl ++ [(k, v)])) = ((hd.1, hd.2) :: (tl ++ [(k, v)])) from by simp,
      lookupField_cons,
      show (hd :: tl : List (String × JSValue)) = ((hd.1, hd.2) :: tl) from by simp,
      lookupField_cons, ih]

theorem lookup_setField_same (l : List (String × JSValue)) (k : String) (v : JSValue) :
    lookupField (setField l k v) k = some v := by
  unfold setField
  cases hany : l.any (fun p => p.1 == k) with
  | true =>
    rw [if_pos rfl]
    exact lookup_replace_same l k v hany
  | false =>
    rw [if_neg Bool.false_ne_true]
    exact lookup_append_absent l k v hany

theorem lookup_setField_ne (l : List (String × JSValue)) (k k' : String) (v : JSValue)
    (h : k' ≠ k) : lookupField (setField l k v) k' = lookupField l k' := by
  have hb : (k' == k) = false := by
    cases hc : (k' == k) with
    | false => rfl
    | true => exact absurd (beq_iff_eq.mp hc) h
  unfold setField
  cases hany : l.any (fun p => p.1 == k) with
  | true =>
    rw [if_pos rfl]
    exact lookup_replace_ne l k k' v hb
  | false =>
    rw [if_neg Bool.false_ne_true]
    exact lookup_append_ne l k k' v hb

theorem lookup_enumFields (xs : List JSValue) (i : Nat) (k : String) :
    (lookupField (enumFields xs i) k).getD .undefined = arrIndex xs i k := by
  induction xs generalizing i with
  | nil => rfl
  | cons x rest ih =>
    rw [enumFields, lookupField_cons, arrIndex]
    by_cases h : (toString i == k) = true
    · rw [if_pos h, if_pos h]
      rfl
    · rw [if_neg h, if_neg h]
      exact ih (i + 1)

theorem normalizeResponse_obj (v : JSValue) (h1 : truthy v = true) (h2 : typeofObject v = true) :
    normalizeResponse v =
      .obj (setField (setField (spreadFields v)
        "segments" (if isArray (getField v "segments") then getField v "segments" else .arr []))
        "output_content"
        (if isArray (getField v "output_content") then getField v "output_content"
          else .arr [])) := by
  unfold normalizeResponse
  rw [if_neg (by simp [h1, h2])]

theorem normalizeResponse_of_guard (v : JSValue)
    (h : truthy v = false ∨ typeofObject v = false) : normalizeResponse v = .null := by
  unfold normalizeResponse
  rcases h with h | h <;> rw [if_pos (by simp [h])]

/-- C4: normalizeResponse maps null and every non-object to null; on an
object input it returns an object whose segments and output_content are
the original field when that field was an array and the empty array
otherwise, while every other field is unchanged. The definition is a
total function, matching the no-throw contract. -/
theorem normalizeResponse_spec :
    (∀ v : JSValue, (truthy v = false ∨ typeofObject v = false) → normalizeResponse v = .null)
    ∧ (∀ v : JSValue, truthy v = true → typeofObject v = true →
        (∃ fs, normalizeResponse v = .obj fs)
        ∧ getField (normalizeResponse v) "segments" =
            (if isArray (getField v "segments") then getField v "segments" else .arr [])
        ∧ getField (normalizeResponse v) "output_content" =
            (if isArray (getField v "output_content") then getField v "output_content"
              else .arr [])
        ∧ ∀ k, k ≠ "segments" → k ≠ "output_content" →
            getField (normalizeResponse v) k = getField v k) := by
  constructor
  · exact normalizeResponse_of_guard
  · intro v h1 h2
    rw [normalizeResponse_obj v h1 h2]
    refine ⟨⟨_, rfl⟩, ?_, ?_, ?_⟩
    · show (lookupField _ "segments").getD .undefined = _
      rw [lookup_setField_ne _ _ _ _ (by decide), lookup_setField_same]
      rfl
    · show (lookupField _ "output_content").getD .undefined = _
      rw [lookup_setField_same]
      rfl
    · intro k hk1 hk2
      show (lookupField _ k).getD .undefined = _
      rw [lookup_setField_ne _ _ _ _ hk2, lookup_setField_ne _ _ _ _ hk1]
      cases v with
      | obj fields => rfl
      | arr xs => exact lookup_enumFields xs 0 k
      | null => exact absurd h1 (by decide)
      | undefined => exact absurd h2 (by simp [typeofObject])
      | bool b => exact absurd h2 (by simp [typeofObject])
      | num n => exact absurd h2 (by simp [typeofObject])
      | str s => exact absurd h2 (by simp [typeofObject])

/-- Witness for C4 at concrete inputs: a number input normalizes to null,
and an object without the two sequence fields gains empty sequences while
keeping its other field. -/
theorem normalizeResponse_spec_witness :
    normalizeResponse (.num 3) = .null
    ∧ getField (normalizeResponse (.obj [("a", .num 1)])) "segments" = .arr []
    ∧ getField (normalizeResponse (.obj [("a", .num 1)])) "a" = .num 1 := by
  refine ⟨normalizeResponse_spec.1 (.num 3) (Or.inr rfl), ?_, ?_⟩
  · exact Eq.trans ((normalizeResponse_spec.2 (.obj [("a", .num 1)]) rfl rfl).2.1) rfl
  · exact Eq.trans
      ((normalizeResponse_spec.2 (.obj [("a", .num 1)]) rfl rfl).2.2.2 "a" (by decide) (by decide))
      rfl

theorem map_id_on {α : Type} (l : List α) (f : α → α) (h : ∀ p ∈ l, f p = p) :
    l.map f = l := by
  induction l with
  | nil => rfl
  | cons hd tl ih =>
    rw [List.map_cons, h hd (by simp), ih (fun p hp => h p (by simp [hp]))]

theorem any_setField_same (l : List (String × JSValue)) (k : String) (v : JSValue) :
    (setField l k v).any (fun p => p.1 == k) = true := by
  unfold setField
  cases hany : l.any (fun p => p.1 == k) with
  | true =>
    rw [if_pos rfl]
    induction l with
    | nil => simp at hany
    | cons hd tl ih =>
      cases hhd : (hd.1 == k) with
      | true =>
        have hk : hd.1 = k := beq_iff_eq.mp hhd
        simp [hk]
      | false =>
        have htl : tl.any (fun p => p.1 == k) = true := by
          simpa [List.any_cons, hhd] using hany
        simp only [List.map_cons, List.any_cons]
        rw [show (if hd.1 == k then (k, v) else hd) = hd from by simp [hhd], hhd]
        simp only [Bool.false_or]
        exact ih htl
  | false =>
    rw [if_neg Bool.false_ne_true]
    simp [List.any_append]

theorem any_setField_presv (l : List (String × JSValue)) (k k' : String) (v : JSValue)
    (h : l.any (fun p => p.1 == k) = true) :
    (setField l k' v).any (fun p => p.1 == k) = true := by
  by_cases hkk : k' = k
  · subst hkk
    exact any_setField_same l k' v
  · unfold setField
    cases hany : l.any (fun p => p.1 == k') with
    | true =>
      rw [if_pos rfl]
      rw [List.any_eq_true] at h ⊢
      obtain ⟨p, hp, hpk⟩ := h
      refine ⟨(fun q => if q.1 == k' then (k', v) else q) p, List.mem_map_of_mem _ hp, ?_⟩
      have hpne : (p.1 == k') = false := by
        cases hc : (p.1 == k') with
        | false => rfl
        | true =>
          exfalso
          apply hkk
          rw [← beq_iff_eq.mp hc]
          exact beq_iff_eq.mp hpk
      simp [hpne, hpk]
    | false =>
      rw [if_neg Bool.false_ne_true]
      simp [List.any_append, h]

theorem values_setField (l : List (String × JSValue)) (k : String) (v : JSValue) :
    ∀ p ∈ setField l k v, p.1 = k → p.2 = v := by
  unfold setField
  cases hany : l.any (fun p => p.1 == k) with
  | true =>
    rw [if_pos rfl]
    intro p hp hpk
    obtain ⟨q, hq, hfq⟩ := List.mem_map.mp hp
    by_cases hq1 : (q.1 == k) = true
    · rw [if_pos hq1] at hfq
      rw [← hfq]
    · rw [if_neg hq1] at hfq
      subst hfq
      exact absurd (beq_iff_eq.mpr hpk) hq1
  | false =>
    rw [if_neg Bool.false_ne_true]
    intro p hp hpk
    rcases List.mem_append.mp hp with hmem | hmem
    · exfalso
      rw [List.any_eq_false] at hany
      · exact hany p hmem (beq_iff_eq.mpr hpk)
    · have : p = (k, v) := by simpa using hmem
      rw [this]

theorem values_setField_keep (l : List (String × JSValue)) (k' : String) (w : JSValue)
    (k : String) (v : JSValue) (hne : k' ≠ k)
    (h : ∀ p ∈ l, p.1 = k → p.2 = v) :
    ∀ p ∈ setField l k' w, p.1 = k → p.2 = v := by
  unfold setField
  cases hany : l.any (fun p => p.1 == k') with
  | true =>
    rw [if_pos rfl]
    intro p hp hpk
    obtain ⟨q, hq, hfq⟩ := List.mem_map.mp hp
    by_cases hq1 : (q.1 == k') = true
    · rw [if_pos hq1] at hfq
      exfalso
      exact hne (by rw [← hfq] at hpk; exact hpk)
    · rw [if_neg hq1] at hfq
      subst hfq
      exact h q hq hpk
  | false =>
    rw [if_neg Bool.false_ne_true]
    intro p hp hpk
    rcases List.mem_append.mp hp with hmem | hmem
    · exact h p hmem hpk
    · exfalso
      have : p = (k', w) := by simpa using hmem
      rw [this] at hpk
      exact hne hpk

theorem setField_self (l : List (String × JSValue)) (k : String) (v : JSValue)
    (hany : l.any (fun p => p.1 == k) = true)
    (hval : ∀ p ∈ l, p.1 = k → p.2 = v) : setField l k v = l := by
  unfold setField
  rw [if_pos hany]
  apply map_id_on
  intro p hp
  by_cases hpk : (p.1 == k) = true
  · rw [if_pos hpk]
    have h1 : p.1 = k := beq_iff_eq.mp hpk
    have h2 : p.2 = v := hval p hp h1
    rw [← h1, ← h2]
  · rw [if_neg hpk]

theorem isArray_forced (x : JSValue) : isArray (if isArray x then x else .arr []) = true := by
  by_cases h : isArray x = true
  · rw [if_pos h]
    exact h
  · rw [if_neg h]
    rfl

/-- C10: normalizeResponse is idempotent; normalizing an already
normalized response (or null) changes nothing. -/
theorem normalizeResponse_idem (v : JSValue) :
    normalizeResponse (normalizeResponse v) = normalizeResponse v := by
  by_cases hg : truthy v = true ∧ typeofObject v = true
  · obtain ⟨h1, h2⟩ := hg
    rw [normalizeResponse_obj v h1 h2]
    set seg := if isArray (getField v "segments") then getField v "segments" else JSValue.arr []
      with hseg
    set out := if isArray (getField v "output_content") then getField v "output_content"
      else JSValue.arr [] with hout
    set G := setField (spreadFields v) "segments" seg with hG
    set F := setField G "output_content" out with hF
    rw [normalizeResponse_obj (.obj F) rfl rfl]
    have hgets : getField (.obj F) "segments" = seg := by
      show (lookupField F "segments").getD .undefined = seg
      rw [hF, lookup_setField_ne _ _ _ _ (by decide), hG, lookup_setField_same]
      rfl
    have hgeto : getField (.obj F) "output_content" = out := by
      show (lookupField F "output_content").getD .undefined = out
      rw [hF, lookup_setField_same]
      rfl
    have hsegA : isArray seg = true := by
      rw [hseg]
      exact isArray_forced _
    have houtA : isArray out = true := by
      rw [hout]
      exact isArray_forced _
    rw [hgets, hgeto, if_pos hsegA, if_pos houtA]
    show JSValue.obj (setField (setField F "segments" seg) "output_content" out) = _
    have hFs : setField F "segments" seg = F := by
      apply setField_self
      · rw [hF]
        apply any_setField_presv
        rw [hG]
        exact any_setField_same _ _ _
      · rw [hF]
        apply values_setField_keep _ _ _ _ _ (by decide)
        rw [hG]
        exact values_setField _ _ _
    have hFo : setField F "output_content" out = F := by
      apply setField_self
      · rw [hF]
        exact any_setField_same _ _ _
      · rw [hF]
        exact values_setField _ _ _
    rw [hFs, hFo]
  · have hor : truthy v = false ∨ typeofObject v = false := by
      by_cases ht : truthy v = true
      · right
        cases hc : typeofObject v with
        | false => rfl
        | true => exact absurd ⟨ht, hc⟩ hg
      · left
        cases hc : truthy v with
        | false => rfl
        | true => exact absurd hc ht
    rw [normalizeResponse_of_guard v hor]
    rfl

/-- The JS expression (x || y): x when truthy, else y. -/
def jsOr (x y : JSValue) : JSValue := if truthy x then x else y

/-- The character class matched by \s in JS regexes and trimmed by
String.prototype.trim: ASCII whitespace, NBSP, the Unicode space
separators, the line separators and the BOM. -/
def jsIsSpace (c : Char) : Bool :=
  c.toNat == 0x20 || c.toNat == 0x09 || c.toNat == 0x0a || c.toNat == 0x0d ||
  c.toNat == 0x0b || c.toNat == 0x0c || c.toNat == 0xa0 || c.toNat == 0x1680 ||
  (0x2000 ≤ c.toNat && c.toNat ≤ 0x200a) || c.toNat == 0x2028 || c.toNat == 0x2029 ||
  c.toNat == 0x202f || c.toNat == 0x205f || c.toNat == 0x3000 || c.toNat == 0xfeff

/-- String.prototype.trim: drop leading and trailing whitespace. -/
def jsTrim (s : String) : String :=
  String.mk (((s.data.dropWhile jsIsSpace).reverse.dropWhile jsIsSpace).reverse)

/-- One loop iteration of extractLatestCommentary: ok (some text) when
this entry returns, ok none when the loop moves on, error when the
iteration throws. Follows the source: skip falsy and non-object entries;
compute (entry.type || "").toLowerCase(), which throws a TypeError when
the type field is truthy but not a string; on a commentary type take
(entry.text || entry.content || "") and return it when it is a string
with non-blank trim. -/
def commentaryText (entry : JSValue) : Except Unit (Option String) :=
  if !truthy entry || !typeofObject entry then .ok none
  else
    match jsOr (getField entry "type") (.str "") with
    | .str s =>
      if lowerStr s == "commentary" then
        match jsOr (getField entry "text") (jsOr (getField entry "content") (.str "")) with
        | .str t => if jsTrim t != "" then .ok (some t) else .ok none
        | _ => .ok none
      else .ok none
    | _ => .error ()

/-- The downward index loop of extractLatestCommentary: entries later in
the list take priority, and the first outcome reached walking backward
(a returned text or a thrown TypeError) ends the scan. -/
def scanBack : List JSValue → Except Unit (Option String)
  | [] => .ok none
  | e :: rest =>
    match scanBack rest with
    | .ok (some t) => .ok (some t)
    | .ok none => commentaryText e
    | .error u => .error u

/-- extractLatestCommentary(segments) from the source: null for
non-arrays, else the backward scan (which can throw). -/
def extractLatestCommentary : JSValue → Except Unit (Option String)
  | .arr segs => scanBack segs
  | _ => .ok none

theorem scanBack_ok_none_iff (l : List JSValue) :
    scanBack l = .ok none ↔ ∀ x ∈ l, commentaryText x = .ok none := by
  induction l with
  | nil => simp [scanBack]
  | cons a rest ih =>
    rw [scanBack]
    cases h : scanBack rest with
    | ok v =>
      cases v with
      | some t =>
        simp only []
        constructor
        · intro hc
          exact absurd hc (by simp)
        · intro hall
          exfalso
          have : scanBack rest = .ok none := ih.mpr (fun x hx => hall x (by simp [hx]))
          rw [this] at h
          simp at h
      | none =>
        simp only []
        constructor
        · intro hc x hx
          rcases List.mem_cons.mp hx with hx | hx
          · rw [hx]
            exact hc
          · exact ih.mp h x hx
        · intro hall
          exact hall a (by simp)
    | error u =>
      simp only []
      constructor
      · intro hc
        exact absurd hc (by simp)
      · intro hall
        exfalso
        have : scanBack rest = .ok none := ih.mpr (fun x hx => hall x (by simp [hx]))
        rw [this] at h
        simp at h

theorem scanBack_ok_some_iff (l : List JSValue) (t : String) :
    scanBack l = .ok (some t) ↔
      ∃ pre e suf, l = pre ++ e :: suf ∧ commentaryText e = .ok (some t)
        ∧ ∀ x ∈ suf, commentaryText x = .ok none := by
  induction l with
  | nil =>
    simp only [scanBack]
    constructor
    · intro hc
      exact absurd hc (by simp)
    · rintro ⟨pre, e, suf, habs, -, -⟩
      exact absurd habs.symm (List.append_ne_nil_of_right_ne_nil pre (by simp))
  | cons a rest ih =>
    rw [scanBack]
    cases h : scanBack rest with
    | ok v =>
      cases v with
      | some t0 =>
        simp only []
        constructor
        · intro hc
          have ht : t0 = t := by
            injection hc with hc1
            injection hc1
          subst ht
          obtain ⟨pre, e, suf, hdec, he, hsuf⟩ := ih.mp h
          exact ⟨a :: pre, e, suf, by rw [hdec, List.cons_append], he, hsuf⟩
        · rintro ⟨pre, e, suf, hdec, he, hsuf⟩
          cases pre with
          | nil =>
            simp only [List.nil_append] at hdec
            have hr : rest = suf := by
              injection hdec
            exfalso
            have : scanBack rest = .ok none := by
              rw [hr]
              exact (scanBack_ok_none_iff suf).mpr hsuf
            rw [this] at h
            simp at h
          | cons b pre2 =>
            have hab : rest = pre2 ++ e :: suf := by
              rw [List.cons_append] at hdec
              injection hdec
            have : scanBack rest = .ok (some t) := ih.mpr ⟨pre2, e, suf, hab, he, hsuf⟩
            rw [this] at h
            injection h with h1
            rw [h1]
      | none =>
        simp only []
        constructor
        · intro hc
          exact ⟨[], a, rest, by simp, hc, (scanBack_ok_none_iff rest).mp h⟩
        · rintro ⟨pre, e, suf, hdec, he, hsuf⟩
          cases pre with
          | nil =>
            simp only [List.nil_append] at hdec
            have ha : a = e := by
              injection hdec
            rw [ha]
            exact he
          | cons b pre2 =>
            exfalso
            have hab : rest = pre2 ++ e :: suf := by
              rw [List.cons_append] at hdec
              injection hdec
            have : scanBack rest = .ok (some t) := ih.mpr ⟨pre2, e, suf, hab, he, hsuf⟩
            rw [this] at h
            simp at h
    | error u =>
      simp only []
      constructor
      · intro hc
        exact absurd hc (by simp)
      · rintro ⟨pre, e, suf, hdec, he, hsuf⟩
        cases pre with
        | nil =>
          simp only [List.nil_append] at hdec
          have hr : rest = suf := by
            injection hdec
          exfalso
          have : scanBack rest = .ok none := by
            rw [hr]
            exact (scanBack_ok_none_iff suf).mpr hsuf
          rw [this] at h
          simp at h
        | cons b pre2 =>
          exfalso
          have hab : rest = pre2 ++ e :: suf := by
            rw [List.cons_append] at hdec
            injection hdec
          have : scanBack rest = .ok (some t) := ih.mpr ⟨pre2, e, suf, hab, he, hsuf⟩
          rw [this] at h
          simp at h

theorem scanBack_error_iff (l : List JSValue) :
    scanBack l = .error () ↔
      ∃ pre e suf, l = pre ++ e :: suf ∧ commentaryText e = .error ()
        ∧ ∀ x ∈ suf, commentaryText x = .ok none := by
  induction l with
  | nil =>
    simp only [scanBack]
    constructor
    · intro hc
      exact absurd hc (by simp)
    · rintro ⟨pre, e, suf, habs, -, -⟩
      exact absurd habs.symm (List.append_ne_nil_of_right_ne_nil pre (by simp))
  | cons a rest ih =>
    rw [scanBack]
    cases h : scanBack rest with
    | ok v =>
      cases v with
      | some t0 =>
        simp only []
        constructor
        · intro hc
          exact absurd hc (by simp)
        · rintro ⟨pre, e, suf, hdec, he, hsuf⟩
          cases pre with
          | nil =>
            simp only [List.nil_append] at hdec
            have hr : rest = suf := by
              injection hdec
            exfalso
            have : scanBack rest = .ok none := by
              rw [hr]
              exact (scanBack_ok_none_iff suf).mpr hsuf
            rw [this] at h
            simp at h
          | cons b pre2 =>
            exfalso
            have hab : rest = pre2 ++ e :: suf := by
              rw [List.cons_append] at hdec
              injection hdec
            have : scanBack rest = .error () := ih.mpr ⟨pre2, e, suf, hab, he, hsuf⟩
            rw [this] at h
            simp at h
      | none =>
        simp only []
        constructor
        · intro hc
          exact ⟨[], a, rest, by simp, hc, (scanBack_ok_none_iff rest).mp h⟩
        · rintro ⟨pre, e, suf, hdec, he, hsuf⟩
          cases pre with
          | nil =>
            simp only [List.nil_append] at hdec
            have ha : a = e := by
              injection hdec
            rw [ha]
            exact he
          | cons b pre2 =>
            exfalso
            have hab : rest = pre2 ++ e :: suf := by
              rw [List.cons_append] at hdec
              injection hdec
            have : scanBack rest = .error () := ih.mpr ⟨pre2, e, suf, hab, he, hsuf⟩
            rw [this] at h
            simp at h
    | error u =>
      cases u
      simp only []
      constructor
      · intro hc
        obtain ⟨pre, e, suf, hdec, he, hsuf⟩ := ih.mp h
        exact ⟨a :: pre, e, suf, by rw [hdec, List.cons_append], he, hsuf⟩
      · intro hall
        trivial

/-- The two segment entries of the C6 counterexample: a well-formed
commentary entry, and an entry whose type field is the number 5. -/
def cexGoodSeg : JSValue := .obj [("type", .str "commentary"), ("text", .str "a")]

def cexBadSeg : JSValue := .obj [("type", .num 5)]

/-- C6 counterexample: the first entry is a commentary entry with
non-empty text, so the claim says the scan returns its text; but the
backward scan reaches the last entry first, whose truthy non-string
type makes (entry.type || "").toLowerCase() throw a TypeError, so
extractLatestCommentary throws instead of returning a value. -/
theorem extractLatestCommentary_throw_counterexample :
    commentaryText cexGoodSeg = .ok (some "a")
    ∧ extractLatestCommentary (.arr [cexGoodSeg, cexBadSeg]) = .error () := by
  exact ⟨rfl, rfl⟩

/-- C6 amended: extractLatestCommentary scans the segment sequence from
the end backward; it returns the text of the first entry encountered
whose type is case-insensitively commentary with non-blank string text,
returns none when every entry is passed over or the input is not an
array, and throws a TypeError at the first entry encountered whose type
field is truthy but not a string; the concrete example of the claim
returns b. -/
theorem extractLatestCommentary_amended :
    (∀ (segs : List JSValue) (t : String),
      extractLatestCommentary (.arr segs) = .ok (some t) ↔
        ∃ pre e suf, segs = pre ++ e :: suf ∧ commentaryText e = .ok (some t)
          ∧ ∀ x ∈ suf, commentaryText x = .ok none)
    ∧ (∀ segs : List JSValue,
        extractLatestCommentary (.arr segs) = .error () ↔
          ∃ pre e suf, segs = pre ++ e :: suf ∧ commentaryText e = .error ()
            ∧ ∀ x ∈ suf, commentaryText x = .ok none)
    ∧ (∀ segs : List JSValue,
        extractLatestCommentary (.arr segs) = .ok none ↔
          ∀ x ∈ segs, commentaryText x = .ok none)
    ∧ (∀ v : JSValue, isArray v = false → extractLatestCommentary v = .ok none)
    ∧ extractLatestCommentary (.arr
        [.obj [("type", .str "commentary"), ("text", .str "a")],
         .obj [("type", .str "other")],
         .obj [("type", .str "commentary"), ("text", .str "b")]]) = .ok (some "b") := by
  refine ⟨?_, ?_, ?_, ?_, ?_⟩
  · intro segs t
    exact scanBack_ok_some_iff segs t
  · intro segs
    exact scanBack_error_iff segs
  · intro segs
    exact scanBack_ok_none_iff segs
  · intro v hv
    cases v with
    | arr xs => exact absurd hv (by simp [isArray])
    | null => rfl
    | undefined => rfl
    | bool b => rfl
    | num n => rfl
    | str s => rfl
    | obj fs => rfl
  · rfl

/-- Witness for C6 amended at a concrete non-array input. -/
theorem extractLatestCommentary_amended_witness :
    extractLatestCommentary .null = .ok none :=
  extractLatestCommentary_amended.2.2.2.1 .null rfl

/-- The replace(/\s+/g, " ") pass: every maximal whitespace run becomes a
single space. The flag records whether the previous character was part of
a run already replaced. -/
def collapseRuns : List Char → Bool → List Char
  | [], _ => []
  | c :: rest, inRun =>
    if jsIsSpace c then
      if inRun then collapseRuns rest true
      else ' ' :: collapseRuns rest true
    else c :: collapseRuns rest false

/-- The cleaned form computed by formatCommentary:
String(x).replace(/\s+/g, " ").trim(). -/
def cleanText (s : String) : String :=
  jsTrim (String.mk (collapseRuns s.data false))

/-- The split on /(?<=[.!?])\s+/: a sentence delimiter is a maximal
whitespace run whose preceding character is a period, exclamation or
question mark. Fueled by the input length so that the run consumption
stays structurally recursive. -/
def splitSentAux : Nat → List Char → Option Char → List Char → List (List Char)
  | _, [], _, acc => [acc.reverse]
  | 0, _ :: _, _, acc => [acc.reverse]
  | Nat.succ n, c :: rest, prev, acc =>
    if jsIsSpace c && (prev == some '.' || prev == some '!' || prev == some '?') then
      match rest.dropWhile jsIsSpace with
      | [] => acc.reverse :: [[]]
      | d :: tail => acc.reverse :: splitSentAux n tail (some d) [d]
    else splitSentAux n rest (some c) (c :: acc)

/-- cleaned.split(/(?<=[.!?])\s+/) as a list of character lists. -/
def splitSentences (cs : List Char) : List (List Char) :=
  splitSentAux (cs.length + 1) cs none []

/-- The branch of formatCommentary past the length guard: keep a cleaned
text of at most 140 characters; otherwise prefer the last sentence when
it fits in 140 characters; otherwise truncate to 137 characters plus an
ellipsis. -/
def formatTail (cleaned : List Char) : List Char :=
  let sentences := (splitSentences cleaned).filter (fun p => !p.isEmpty)
  match sentences.getLast? with
  | some lastSentence =>
    if lastSentence.length ≤ 140 then lastSentence
    else cleaned.take 137 ++ ['…']
  | none => cleaned.take 137 ++ ['…']

/-- formatCommentary(commentary) from the source, on string inputs (the
only values the callers pass): null for falsy input and for input whose
cleaned form is empty, the cleaned form when at most 140 characters,
otherwise the sentence-or-truncation tail. -/
def formatCommentary (commentary : String) : Option String :=
  if commentary == "" then none
  else
    let cleaned := cleanText commentary
    if cleaned == "" then none
    else if cleaned.length ≤ 140 then some cleaned
    else some (String.mk (formatTail cleaned.data))

/-- The behaviour of formatCommentary as the claim words it, total on
strings: clean, keep when at most 140 characters, else prefer a final
sentence of at most 140 characters, else truncate to 137 characters and
append an ellipsis. -/
def formatCommentarySpec (s : String) : String :=
  let cleaned := cleanText s
  if cleaned.length ≤ 140 then cleaned
  else
    let sentences := (splitSentences cleaned.data).filter (fun p => !p.isEmpty)
    match sentences.getLast? with
    | some lastSentence =>
      if lastSentence.length ≤ 140 then String.mk lastSentence
      else String.mk (cleaned.data.take 137 ++ ['…'])
    | none => String.mk (cleaned.data.take 137 ++ ['…'])

/-- C3 counterexample: on the empty string the cleaned form is empty and
at most 140 characters, yet formatCommentary returns none rather than
that cleaned form as the claim states. -/
theorem formatCommentary_empty_counterexample :
    (cleanText "").length ≤ 140
    ∧ formatCommentary "" = none
    ∧ formatCommentary "" ≠ some (formatCommentarySpec "") := by
  refine ⟨by decide, rfl, ?_⟩
  intro h
  exact absurd h (by decide)

set_option maxRecDepth 4096 in
/-- C3 amended: for every input string whose cleaned form is non-empty,
formatCommentary returns exactly the value described by the claim (the
cleaned form when at most 140 characters, else a final sentence of at
most 140 characters, else the 137-character truncation with an
ellipsis); on empty-cleaning inputs it returns none. The two concrete
examples of the claim hold. -/
theorem formatCommentary_amended :
    (∀ s : String, formatCommentary s =
      (if cleanText s = "" then none else some (formatCommentarySpec s)))
    ∧ formatCommentary "  a   b  " = some "a b"
    ∧ formatCommentary (String.mk (List.replicate 200 'x'))
        = some (String.mk (List.replicate 137 'x' ++ ['…']))
    ∧ (String.mk (List.replicate 137 'x' ++ ['…'])).length = 138 := by
  refine ⟨?_, by decide, by decide, by decide⟩
  intro s
  by_cases hs : s = ""
  · subst hs
    rw [if_pos (by decide)]
    rfl
  · unfold formatCommentary
    rw [if_neg (by simpa using hs)]
    by_cases hc : cleanText s = ""
    · rw [if_pos hc, if_pos (by simpa using hc)]
    · rw [if_neg hc, if_neg (by simpa using hc)]
      unfold formatCommentarySpec
      by_cases hlen : (cleanText s).length ≤ 140
      · rw [if_pos hlen, if_pos hlen]
      · rw [if_neg hlen, if_neg hlen]
        unfold formatTail
        cases hlast : ((splitSentences (cleanText s).data).filter
            (fun p => !p.isEmpty)).getLast? with
        | some lastSentence =>
          simp only [hlast]
          by_cases hfit : lastSentence.length ≤ 140
          · rw [if_pos hfit, if_pos hfit]
          · rw [if_neg hfit, if_neg hfit]
        | none =>
          simp only [hlast]

/-- Strict equality (===) between JS values: value equality on
primitives. Reference equality on arrays and objects is not modelled;
the compared values in this code (ids, statuses, agent states) are
primitive. -/
def jsStrictEq (a b : JSValue) : Bool :=
  match a, b with
  | .null, .null => true
  | .undefined, .undefined => true
  | .bool x, .bool y => x == y
  | .num x, .num y => x == y
  | .str x, .str y => x == y
  | _, _ => false

/-- The comparison (v === "pending" || v === "processing") used verbatim
by the chat polling engine and by the history staleness classifier. -/
def pendingProcessingCheck (v : JSValue) : Bool :=
  jsStrictEq v (.str "pending") || jsStrictEq v (.str "processing")

/-- Outcome of one fetch as observed by the polling code: ok with the
parsed JSON body, or failure (a non-2xx response throws in the source
and joins network errors in the catch handler). -/
inductive FetchResult where
  | ok (body : JSValue)
  | fail

/-- Local state of the primary polling engine: the response React state,
the poll error message and whether the repeating task is live (the
isPolling flag and the interval are started and stopped together in the
source, so one flag models both). -/
structure PollState where
  response : JSValue
  pollError : Option String
  isPolling : Bool

/-- The advisory message recorded on a failed poll tick. -/
def pollAdvisory : String := "Temporary issue polling agent status…"

/-- One tick of the primary polling engine (the 3-second interval body):
on failure record the advisory message and keep polling; on success with
a body that normalizes to an object, replace the response, clear the
error and stop exactly on a terminal status; a body normalizing to null
leaves the state untouched; a cancelled tick never mutates state. -/
def pollTick (cancelled : Bool) (st : PollState) (fetch : FetchResult) : PollState :=
  match fetch with
  | .fail => if cancelled then st else { st with pollError := some pollAdvisory }
  | .ok body =>
    let data := normalizeResponse body
    if !cancelled && truthy data then
      { response := data
        pollError := none
        isPolling := if isTerminal (getField data "status") then false else st.isPolling }
    else st

/-- C8 counterexample: a successful fetch whose JSON body is null is a
fetch success, yet the engine neither replaces the response state nor
clears a prior poll error, contradicting the claim that every fetch
success replaces the state and clears the error. -/
theorem pollTick_success_counterexample :
    (pollTick false { response := .null, pollError := some pollAdvisory, isPolling := true }
        (.ok .null)).pollError = some pollAdvisory
    ∧ (pollTick false { response := .null, pollError := some pollAdvisory, isPolling := true }
        (.ok .null)).pollError ≠ none := by
  constructor
  · rfl
  · intro h
    exact absurd h (by simp [pollTick, normalizeResponse, truthy])

/-- C8 amended: on a successful tick whose body normalizes to an object
the engine replaces the response with the normalized result, clears any
prior poll error and stops exactly when the normalized status is
terminal; a success whose body normalizes to null changes nothing; on a
failed tick the engine records the advisory message and keeps the
polling flag unchanged, so any number of consecutive failures never
stops an active task. -/
theorem pollTick_amended :
    (∀ (st : PollState) (body : JSValue), truthy (normalizeResponse body) = true →
      pollTick false st (.ok body) =
        { response := normalizeResponse body
          pollError := none
          isPolling := if isTerminal (getField (normalizeResponse body) "status") then false
            else st.isPolling })
    ∧ (∀ (st : PollState) (body : JSValue), truthy (normalizeResponse body) = false →
        pollTick false st (.ok body) = st)
    ∧ (∀ st : PollState, pollTick false st .fail = { st with pollError := some pollAdvisory })
    ∧ (∀ (st : PollState) (body : JSValue), st.isPolling = true →
        truthy (normalizeResponse body) = true →
        ((pollTick false st (.ok body)).isPolling = false ↔
          isTerminal (getField (normalizeResponse body) "status") = true))
    ∧ (∀ (st : PollState) (n : Nat),
        ((fun s => pollTick false s .fail)^[n] st).isPolling = st.isPolling) := by
  refine ⟨?_, ?_, ?_, ?_, ?_⟩
  · intro st body h
    simp [pollTick, h]
  · intro st body h
    simp [pollTick, h]
  · intro st
    rfl
  · intro st body hp h
    cases ht : isTerminal (getField (normalizeResponse body) "status") with
    | true => simp [pollTick, h, ht]
    | false => simp [pollTick, h, ht, hp]
  · intro st n
    induction n with
    | zero => rfl
    | succ m ih =>
      rw [Function.iterate_succ_apply']
      show (pollTick false _ .fail).isPolling = _
      rw [show ∀ s, (pollTick false s .fail).isPolling = s.isPolling from fun s => rfl]
      exact ih

/-- Witness for C8 amended at concrete inputs: a completed body stops an
active task, and three consecutive failures leave it polling. -/
theorem pollTick_amended_witness :
    pollTick false { response := .null, pollError := some pollAdvisory, isPolling := true }
        (.ok (.obj [("status", .str "completed")])) =
      { response := normalizeResponse (.obj [("status", .str "completed")])
        pollError := none
        isPolling := false }
    ∧ ((fun s => pollTick false s .fail)^[3]
        { response := .null, pollError := none, isPolling := true }).isPolling = true := by
  constructor
  · exact Eq.trans (pollTick_amended.1 _ (.obj [("status", .str "completed")]) rfl) (by rfl)
  · exact Eq.trans (pollTick_amended.2.2.2.2
      { response := .null, pollError := none, isPolling := true } 3) rfl

theorem char_ofNat_toNat_valid (n : Nat) (h : n.isValidChar) : (Char.ofNat n).toNat = n := by
  simp only [Char.ofNat, h, dif_pos, Char.ofNatAux, Char.toNat]
  simp [UInt32.toNat, BitVec.toNat_ofNatLt]

theorem char_toLower_idem (c : Char) : Char.toLower (Char.toLower c) = Char.toLower c := by
  unfold Char.toLower
  by_cases h : c.toNat ≥ 65 ∧ c.toNat ≤ 90
  · rw [if_pos h]
    have hv : (c.toNat + 32).isValidChar := Or.inl (by omega)
    have ht : (Char.ofNat (c.toNat + 32)).toNat = c.toNat + 32 := char_ofNat_toNat_valid _ hv
    have hneg : ¬((Char.ofNat (c.toNat + 32)).toNat ≥ 65
        ∧ (Char.ofNat (c.toNat + 32)).toNat ≤ 90) := by
      rw [ht]
      omega
    rw [if_neg hneg]
  · rw [if_neg h, if_neg h]

theorem lowerStr_idem (s : String) : lowerStr (lowerStr s) = lowerStr s := by
  unfold lowerStr
  simp only [List.map_map]
  congr 1
  apply List.map_congr_left
  intro c _
  exact char_toLower_idem c

theorem lowerStr_empty_iff (s : String) : lowerStr s = "" ↔ s = "" := by
  unfold lowerStr
  constructor
  · intro h
    cases hs : s.data with
    | nil =>
      cases s with
      | mk data =>
        simp at hs
        rw [hs]
    | cons c rest =>
      exfalso
      rw [show s = String.mk s.data from rfl] at h
      rw [hs] at h
      simp [String.mk] at h
      have : (String.mk (Char.toLower c :: rest.map Char.toLower)).data
          = ("" : String).data := by rw [h]
      simp at this
  · intro h
    rw [h]
    rfl

/-- C2 counterexample: the pending/processing comparison used by the chat
polling engine and the history staleness classifier is an exact string
match, so the status Pending and its lowercased form pending take
different branches there. -/
theorem status_case_counterexample :
    pendingProcessingCheck (.str "Pending") = false
    ∧ pendingProcessingCheck (.str (lowerStr "Pending")) = true
    ∧ pendingProcessingCheck (.str "Pending")
        ≠ pendingProcessingCheck (.str (lowerStr "Pending")) := by
  refine ⟨by decide, by decide, by decide⟩

/-- C2 amended: isTerminal (and with it the terminal checks of both
polling engines, which call it) branches identically on a status and on
its lowercased form; the pending/processing checks of the chat history
builder and the chat polling engine instead compare exactly, accepting
only the lowercase spellings pending and processing. -/
theorem status_case_amended :
    (∀ s : String, isTerminal (.str s) = isTerminal (.str (lowerStr s)))
    ∧ (∀ s : String, pendingProcessingCheck (.str s)
        = (s == "pending" || s == "processing")) := by
  constructor
  · intro s
    by_cases h : s = ""
    · subst h
      rfl
    · have h2 : lowerStr s ≠ "" := fun hc => h ((lowerStr_empty_iff s).mp hc)
      unfold isTerminal
      rw [if_neg (by simp [truthy, h]), if_neg (by simp [truthy, h2])]
      show TERMINAL_STATUSES.contains (lowerStr s) = TERMINAL_STATUSES.contains (lowerStr (lowerStr s))
      rw [lowerStr_idem]
  · intro s
    rfl

/-- Kind of a reconstructed chat message. -/
inductive MsgType where
  | user
  | agent
  | error
  deriving DecidableEq

/-- A client-side chat message as built by the history loader, the
submit handler and the chat polling engine. Ids are JS values (template
strings, Date.now().toString() strings, or raw response ids). -/
structure Msg where
  id : JSValue
  type : MsgType
  content : String
  timestamp : JSValue
  response : Option JSValue
  status : Option JSValue
  agentState : Option String

/-- The chat-related component state: the message list, the
history-loaded latch, the isSendingChat flag, the captured content of an
in-flight submission (the userMessage closure variable of
handleChatSubmit), the currentChatResponseId value and the isChatPolling
flag. -/
structure ChatState where
  messages : List Msg
  historyLoaded : Bool
  sending : Bool
  inflight : Option String
  currentId : JSValue
  polling : Bool

/-- The map performed when the chat polling engine reclassifies the
tracked message to busy_timeout. -/
def busyTimeoutUpdate (cid : JSValue) (data : JSValue) (m : Msg) : Msg :=
  if jsStrictEq m.id cid then
    { m with
        response := some data,
        status := some (.str "busy_timeout"),
        agentState := some "slept" }
  else m

/-- The ordinary map of the chat polling engine: attach the fetched
response and its status to the tracked message. -/
def statusUpdate (cid : JSValue) (data : JSValue) (m : Msg) : Msg :=
  if jsStrictEq m.id cid then
    { m with response := some data, status := some (getField data "status") }
  else m

/-- Whether an agent-state query result reports the dormant state
(agentData.state === "slept"); a failed query reports nothing. -/
def sleptCheck : FetchResult → Bool
  | .ok sbody => jsStrictEq (getField sbody "state") (.str "slept")
  | .fail => false

/-- The tail of a successful chat poll tick that did not reclassify:
update the tracked message and stop on a terminal status. -/
def chatGeneralUpdate (st : ChatState) (data : JSValue) : ChatState :=
  { st with
      messages := st.messages.map (statusUpdate st.currentId data)
      polling := if isTerminal (getField data "status") then false else st.polling
      currentId := if isTerminal (getField data "status") then .null else st.currentId }

/-- The state produced when the chat polling engine reclassifies the
tracked response to busy_timeout and stops. -/
def chatBusyState (st : ChatState) (data : JSValue) : ChatState :=
  { st with
      messages := st.messages.map (busyTimeoutUpdate st.currentId data)
      polling := false
      currentId := .null }

/-- One tick of the chat polling engine (source lines 262-313): a failed
fetch only logs; a body normalizing to null is ignored; otherwise, when
the status is exactly pending or processing the engine queries agent
liveness and, when that query reports slept, reclassifies the tracked
message to busy_timeout and stops; in every other case it applies the
ordinary update, stopping on a terminal status. The returned flag
records whether the liveness side query was performed. -/
def chatPollTick (cancelled : Bool) (st : ChatState) (fetch stateFetch : FetchResult) :
    ChatState × Bool :=
  match fetch with
  | .fail => (st, false)
  | .ok body =>
    let data := normalizeResponse body
    if !cancelled && truthy data then
      if pendingProcessingCheck (getField data "status") then
        if sleptCheck stateFetch then (chatBusyState st data, true)
        else (chatGeneralUpdate st data, true)
      else (chatGeneralUpdate st data, false)
    else (st, false)

/-- The staleness test of the history loader: the elapsed time since
created_at exceeds 3600000 ms. dateOf models the JS Date conversion in
milliseconds, returning none where JS produces NaN (and every comparison
with NaN is false). -/
def isStaleAt (dateOf : JSValue → Option Int) (now : Int) (resp : JSValue) : Bool :=
  match dateOf (getField resp "created_at") with
  | some t => decide (now - t > 3600000)
  | none => false

/-- The finalStatus computation of the history loader (source lines
176-194): when the raw status is exactly pending or processing and the
response is stale, query agent liveness; when that reports slept the
status becomes busy_timeout, otherwise (including query failure) the raw
status stands. -/
def classifyHistory (dateOf : JSValue → Option Int) (now : Int) (stateFetch : FetchResult)
    (resp : JSValue) : JSValue :=
  if pendingProcessingCheck (getField resp "status") && isStaleAt dateOf now resp then
    match stateFetch with
    | .ok sbody =>
      if jsStrictEq (getField sbody "state") (.str "slept") then .str "busy_timeout"
      else getField resp "status"
    | .fail => getField resp "status"
  else getField resp "status"

theorem pendingProcessing_not_terminal (v : JSValue)
    (h : pendingProcessingCheck v = true) : isTerminal v = false := by
  cases v with
  | str s =>
    have : s = "pending" ∨ s = "processing" := by
      unfold pendingProcessingCheck jsStrictEq at h
      rcases Bool.or_eq_true_iff.mp h with h1 | h1
      · exact Or.inl (by simpa using h1)
      · exact Or.inr (by simpa using h1)
    rcases this with h1 | h1 <;> subst h1 <;> decide
  | null => simp [pendingProcessingCheck, jsStrictEq] at h
  | undefined => simp [pendingProcessingCheck, jsStrictEq] at h
  | bool b => simp [pendingProcessingCheck, jsStrictEq] at h
  | num n => simp [pendingProcessingCheck, jsStrictEq] at h
  | arr xs => simp [pendingProcessingCheck, jsStrictEq] at h
  | obj fs => simp [pendingProcessingCheck, jsStrictEq] at h

/-- A chat response body created just now: status pending, age zero at
the concrete clock used below. -/
def cexChatBody : JSValue :=
  .obj [("id", .str "r1"), ("status", .str "pending"),
        ("created_at", .str "2026-01-01T00:00:00.000Z")]

/-- A concrete Date conversion: the one timestamp above parses to 0 ms,
everything else is NaN. -/
def cexDateOf : JSValue → Option Int :=
  fun v =>
    match v with
    | .str "2026-01-01T00:00:00.000Z" => some 0
    | _ => none

/-- A chat state tracking the response above: one user message and its
in-flight agent message. -/
def cexChatState : ChatState :=
  { messages :=
      [{ id := .str "user-r1", type := .user, content := "hi",
         timestamp := .str "2026-01-01T00:00:00.000Z", response := none, status := none,
         agentState := none },
       { id := .str "r1", type := .agent, content := "hi",
         timestamp := .str "2026-01-01T00:00:00.000Z", response := some cexChatBody,
         status := some (.str "pending"), agentState := none }],
    historyLoaded := true, sending := false, inflight := none,
    currentId := .str "r1", polling := true }

/-- C1 counterexample: at clock 0 the tracked response is 0 seconds old,
far below the 3600-second threshold, yet on this tick the chat polling
engine performs the liveness side query and, the agent being slept,
reclassifies the message to busy_timeout and stops the task: the engine
applies no age condition. -/
theorem chatPoll_stale_counterexample :
    isStaleAt cexDateOf 0 cexChatBody = false
    ∧ (chatPollTick false cexChatState (.ok cexChatBody)
        (.ok (.obj [("state", .str "slept")]))).2 = true
    ∧ (chatPollTick false cexChatState (.ok cexChatBody)
        (.ok (.obj [("state", .str "slept")]))).1.polling = false
    ∧ ((chatPollTick false cexChatState (.ok cexChatBody)
        (.ok (.obj [("state", .str "slept")]))).1.messages.map Msg.status)
        = [none, some (.str "busy_timeout")] := by
  refine ⟨rfl, rfl, rfl, rfl⟩

/-- C1 amended: on an active chat poll tick whose body normalizes to an
object, the liveness side query is performed exactly when the status is
exactly pending or processing, with no age condition; the busy_timeout
reclassification (which stops the task) happens exactly when that query
is performed and reports slept; a terminal status never triggers the
query or the reclassification. The 3600000 ms age gate exists only in
the history loader, whose finalStatus is busy_timeout under exactly the
conjunction of the pending/processing check, the staleness bound and the
slept liveness report. -/
theorem chatPoll_staleness_amended :
    (∀ (st : ChatState) (body : JSValue) (sf : FetchResult),
      truthy (normalizeResponse body) = true →
      ((chatPollTick false st (.ok body) sf).2 = true ↔
        pendingProcessingCheck (getField (normalizeResponse body) "status") = true))
    ∧ (∀ (st : ChatState) (body : JSValue) (sf : FetchResult),
        truthy (normalizeResponse body) = true → st.polling = true →
        (chatPollTick false st (.ok body) sf
            = (chatBusyState st (normalizeResponse body), true) ↔
          (pendingProcessingCheck (getField (normalizeResponse body) "status") = true
            ∧ sleptCheck sf = true)))
    ∧ (∀ (st : ChatState) (body : JSValue) (sf : FetchResult),
        isTerminal (getField (normalizeResponse body) "status") = true →
        (chatPollTick false st (.ok body) sf).2 = false)
    ∧ (∀ (dateOf : JSValue → Option Int) (now : Int) (sf : FetchResult) (resp : JSValue),
        classifyHistory dateOf now sf resp =
          (if pendingProcessingCheck (getField resp "status") && isStaleAt dateOf now resp
              && sleptCheck sf
            then .str "busy_timeout" else getField resp "status")) := by
  refine ⟨?_, ?_, ?_, ?_⟩
  · intro st body sf h
    cases hp : pendingProcessingCheck (getField (normalizeResponse body) "status") with
    | true =>
      cases hs : sleptCheck sf with
      | true => simp [chatPollTick, h, hp, hs]
      | false => simp [chatPollTick, h, hp, hs]
    | false => simp [chatPollTick, h, hp]
  · intro st body sf h hpol
    cases hp : pendingProcessingCheck (getField (normalizeResponse body) "status") with
    | true =>
      cases hs : sleptCheck sf with
      | true => simp [chatPollTick, h, hp, hs]
      | false =>
        simp only [chatPollTick, h, hp, hs, Bool.not_false, Bool.and_self, if_true, if_false,
          Bool.true_and]
        constructor
        · intro hc
          exfalso
          have heq : chatGeneralUpdate st (normalizeResponse body)
              = chatBusyState st (normalizeResponse body) := by
            have := congrArg Prod.fst hc
            simpa using this
          have hterm : isTerminal (getField (normalizeResponse body) "status") = false :=
            pendingProcessing_not_terminal _ hp
          have hpoll : (chatGeneralUpdate st (normalizeResponse body)).polling = true := by
            simp [chatGeneralUpdate, hterm, hpol]
          rw [heq] at hpoll
          simp [chatBusyState] at hpoll
        · intro hc
          exact absurd hc.2 (by simp)
    | false =>
      simp only [chatPollTick, h, hp, Bool.not_false, Bool.and_self, if_true, if_false,
        Bool.true_and]
      constructor
      · intro hc
        exfalso
        have := congrArg Prod.snd hc
        simp at this
      · intro hc
        exact absurd hc.1 (by simp [hp])
  · intro st body sf hterm
    have hp : pendingProcessingCheck (getField (normalizeResponse body) "status") = false := by
      cases hc : pendingProcessingCheck (getField (normalizeResponse body) "status") with
      | false => rfl
      | true =>
        rw [pendingProcessing_not_terminal _ hc] at hterm
        exact absurd hterm (by simp)
    cases ht : truthy (normalizeResponse body) with
    | true => simp [chatPollTick, ht, hp]
    | false => simp [chatPollTick, ht]
  · intro dateOf now sf resp
    unfold classifyHistory
    cases hp : pendingProcessingCheck (getField resp "status") with
    | true =>
      cases hstale : isStaleAt dateOf now resp with
      | true =>
        cases sf with
        | ok sbody =>
          cases hs : jsStrictEq (getField sbody "state") (.str "slept") with
          | true => simp [hp, hstale, hs, sleptCheck]
          | false => simp [hp, hstale, hs, sleptCheck]
        | fail => simp [hp, hstale, sleptCheck]
      | false => simp [hp, hstale]
    | false => simp [hp]

/-- Witness for C1 amended at concrete inputs: a pending status with a
slept liveness report reclassifies on the engine tick, and the history
classifier turns a stale pending response into busy_timeout. -/
theorem chatPoll_staleness_amended_witness :
    chatPollTick false cexChatState (.ok cexChatBody) (.ok (.obj [("state", .str "slept")]))
      = (chatBusyState cexChatState (normalizeResponse cexChatBody), true)
    ∧ classifyHistory cexDateOf 7200000 (.ok (.obj [("state", .str "slept")])) cexChatBody
      = .str "busy_timeout" := by
  constructor
  · exact (chatPoll_staleness_amended.2.1 cexChatState cexChatBody
      (.ok (.obj [("state", .str "slept")])) rfl rfl).mpr ⟨rfl, rfl⟩
  · exact Eq.trans (chatPoll_staleness_amended.2.2.2 cexDateOf 7200000
      (.ok (.obj [("state", .str "slept")])) cexChatBody) (by rfl)

/-- Index 0 access as in the optional chain input_content?.[0]:
element 0 of an array, field "0" of an object, the first character of a
string, undefined otherwise. -/
def jsIndex0 : JSValue → JSValue
  | .arr [] => .undefined
  | .arr (x :: _) => x
  | .obj fs => (lookupField fs "0").getD .undefined
  | .str s =>
    match s.data with
    | [] => .undefined
    | c :: _ => .str (String.mk [c])
  | _ => .undefined

/-- The optional chain r.input_content?.[0]?.content: undefined as soon
as a link is null or undefined. -/
def optChainContent (r : JSValue) : JSValue :=
  match getField r "input_content" with
  | .null => .undefined
  | .undefined => .undefined
  | ic =>
    match jsIndex0 ic with
    | .null => .undefined
    | .undefined => .undefined
    | first => getField first "content"

/-- The JS comparison (x > n) on a length value, as ToNumber coerces it:
numbers compare directly, null coerces to 0 and booleans to 0 or 1,
undefined is NaN (every comparison false), strings coerce through the
toNum parameter (none standing for NaN), a plain object stringifies to
"[object Object]" hence NaN, and an array joins its elements: the empty
array gives 0, a one-element array coerces as its element's string form
(nested composite elements abstracted to NaN), and a longer join
contains a comma hence NaN. -/
def jsGtNum (toNum : String → Option Int) (v : JSValue) (bound : Int) : Bool :=
  match v with
  | .num n => decide (n > bound)
  | .null => decide ((0 : Int) > bound)
  | .undefined => false
  | .bool b => decide ((if b then (1 : Int) else 0) > bound)
  | .str s =>
    match toNum s with
    | some n => decide (n > bound)
    | none => false
  | .obj _ => false
  | .arr [] => decide ((0 : Int) > bound)
  | .arr [x] =>
    match x with
    | .null => decide ((0 : Int) > bound)
    | .undefined => decide ((0 : Int) > bound)
    | .num n => decide (n > bound)
    | .str s =>
      match toNum s with
      | some n => decide (n > bound)
      | none => false
    | _ => false
  | .arr _ => false

/-- The JS test (x.length > n): the length property is the character
count for strings, the element count for arrays, an own length field
for objects (undefined when missing) and undefined for every other
value; the comparison then coerces via jsGtNum. -/
def jsLenGt (toNum : String → Option Int) (v : JSValue) (bound : Int) : Bool :=
  match v with
  | .str s => decide ((s.length : Int) > bound)
  | .arr xs => decide ((xs.length : Int) > bound)
  | .obj fs => jsGtNum toNum ((lookupField fs "length").getD .undefined) bound
  | _ => false

/-- Substring occurrence test on character lists. -/
def listHasInfix (needle : List Char) : List Char → Bool
  | [] => needle.isEmpty
  | c :: rest => needle.isPrefixOf (c :: rest) || listHasInfix needle rest

/-- String.prototype.includes on strings and Array.prototype.includes
(strict-equality membership) on arrays; any other receiver has no
includes method, so the call throws a TypeError. -/
def jsIncludes (v : JSValue) (needle : String) : Except Unit Bool :=
  match v with
  | .str s => .ok (listHasInfix needle.data s.data)
  | .arr xs => .ok (xs.any (fun x => jsStrictEq x (.str needle)))
  | _ => .error ()

/-- The filter callback of the chat history loader (source lines
126-143): ok false drops the response (falsy response, falsy id, the
current response, an input content longer than 500, or one containing
both marker substrings), ok true keeps it, and error models the
TypeError thrown by inputContent.includes when the first input content
is truthy but neither a string nor an array (the || "" guard passes
such values through). The length test short-circuits before the
includes call, and the second includes call is reached only when the
first returned true. -/
def keepResp (toNum : String → Option Int) (currentId : JSValue) (r : JSValue) :
    Except Unit Bool :=
  if !truthy r then .ok false
  else if !truthy (getField r "id") then .ok false
  else if jsStrictEq (getField r "id") currentId then .ok false
  else
    let inputContent := jsOr (optChainContent r) (.str "")
    if jsLenGt toNum inputContent 500 then .ok false
    else
      match jsIncludes inputContent "Clone" with
      | .error u => .error u
      | .ok b1 =>
        if b1 then
          match jsIncludes inputContent "**Step 1:" with
          | .error u => .error u
          | .ok b2 => if b2 then .ok false else .ok true
        else .ok true

/-- Array.prototype.filter with a callback that can throw: elements are
visited left to right and the first thrown error aborts the whole
call. -/
def filterE (p : JSValue → Except Unit Bool) : List JSValue → Except Unit (List JSValue)
  | [] => .ok []
  | x :: rest =>
    match p x with
    | .error u => .error u
    | .ok true =>
      match filterE p rest with
      | .ok kept => .ok (x :: kept)
      | .error u => .error u
    | .ok false => filterE p rest

/-- The sort comparator (a, b) => new Date(a.created_at || 0) -
new Date(b.created_at || 0), through the dateOf parameter that models
the Date conversion; a NaN on either side makes the comparator act as
equality, as the ECMAScript sort does. -/
def sortCmp (dateOf : JSValue → Option Int) (a b : JSValue) : Int :=
  match dateOf (jsOr (getField a "created_at") (.num 0)),
      dateOf (jsOr (getField b "created_at") (.num 0)) with
  | some x, some y => x - y
  | _, _ => 0

/-- Stable insertion respecting a boolean comparison: the new element
goes after every existing element not greater than it, as the stable
ECMAScript sort orders tied elements. -/
def insertSorted (le : JSValue → JSValue → Bool) (x : JSValue) : List JSValue → List JSValue
  | [] => [x]
  | y :: ys => if le y x then y :: insertSorted le x ys else x :: y :: ys

/-- The ascending sort by created_at of the history loader, modelled by
a stable insertion sort. When every compared date parses, the comparator
is consistent and this is exactly the order the ECMAScript sort
produces; with an unparseable date the comparator yields NaN (treated
as equality), the comparator is inconsistent and ECMAScript leaves the
resulting order implementation-defined, so ordering statements about
the source are made under a parse hypothesis. -/
def sortByCreated (dateOf : JSValue → Option Int) (l : List JSValue) : List JSValue :=
  l.foldr (insertSorted (fun a b => decide (sortCmp dateOf a b ≤ 0))) []

/-- chatResponses from the source: the fetched list (empty when the
payload is not an array) filtered and sorted ascending by created_at; a
TypeError thrown inside the filter propagates out of the whole
computation. -/
def chatResponses (toNum : String → Option Int) (dateOf : JSValue → Option Int)
    (currentId : JSValue) (allResponses : JSValue) : Except Unit (List JSValue) :=
  match allResponses with
  | .arr rs =>
    match filterE (keepResp toNum currentId) rs with
    | .ok kept => .ok (sortByCreated dateOf kept)
    | .error u => .error u
  | _ => .ok []

/-- The strict user-content extraction of the message loop (source lines
157-163): input_content must be a non-empty array whose first element is
truthy with a string content field; anything else yields the empty
string. -/
def strictUserContent (r : JSValue) : String :=
  match getField r "input_content" with
  | .arr [] => ""
  | .arr (first :: _) =>
    if truthy first then
      match getField first "content" with
      | .str t => t
      | _ => ""
    else ""
  | _ => ""

/-- The continue conditions of the message loop: a message pair is
emitted only for a truthy response with a truthy id whose strict user
content is non-empty and non-blank. -/
def loopKeep (r : JSValue) : Bool :=
  truthy r && truthy (getField r "id")
    && strictUserContent r != "" && jsTrim (strictUserContent r) != ""

/-- The user message pushed by the history loop. -/
def mkUserMsg (nowIso : String) (r : JSValue) : Msg :=
  { id := .str ("user-" ++ jsToString (getField r "id")),
    type := .user,
    content := strictUserContent r,
    timestamp := jsOr (getField r "created_at") (.str nowIso),
    response := none, status := none, agentState := none }

/-- The agent message pushed by the history loop, carrying the
normalized response and the staleness-classified status. -/
def mkAgentMsg (dateOf : JSValue → Option Int) (now : Int) (nowIso : String)
    (stateFetch : FetchResult) (r : JSValue) : Msg :=
  { id := getField r "id",
    type := .agent,
    content := strictUserContent r,
    timestamp := jsOr (getField r "updated_at") (jsOr (getField r "created_at") (.str nowIso)),
    response := some (normalizeResponse r),
    status := some (classifyHistory dateOf now stateFetch r),
    agentState :=
      if jsStrictEq (classifyHistory dateOf now stateFetch r) (.str "busy_timeout")
        then some "slept" else none }

/-- The message-building loop of the history loader, one user and one
agent message per surviving response; stateFetch gives the liveness
answer observed while processing each response. No statement in the
loop can throw: the extraction is typeof-guarded and the staleness
classification only compares and reads fields. -/
def buildMessages (dateOf : JSValue → Option Int) (now : Int) (nowIso : String)
    (stateFetch : JSValue → FetchResult) : List JSValue → List Msg
  | [] => []
  | r :: rest =>
    if loopKeep r then
      mkUserMsg nowIso r :: mkAgentMsg dateOf now nowIso (stateFetch r) r
        :: buildMessages dateOf now nowIso stateFetch rest
    else buildMessages dateOf now nowIso stateFetch rest

/-- The chat messages present after a history load that started from the
empty initial list: the built pairs when filter and sort succeed, and
the untouched empty list when the filter throws (the try/catch around
loadChatHistory swallows the TypeError before setChatMessages ever
runs). -/
def loadTimeline (toNum : String → Option Int) (dateOf : JSValue → Option Int) (now : Int)
    (nowIso : String) (stateFetch : JSValue → FetchResult) (currentId : JSValue)
    (payload : JSValue) : List Msg :=
  match chatResponses toNum dateOf currentId payload with
  | .ok rs => buildMessages dateOf now nowIso stateFetch rs
  | .error _ => []

theorem mem_insertSorted (le : JSValue → JSValue → Bool) (x z : JSValue) (l : List JSValue) :
    z ∈ insertSorted le x l ↔ (z = x ∨ z ∈ l) := by
  induction l with
  | nil => simp [insertSorted]
  | cons y ys ih =>
    by_cases hle : le y x = true
    · rw [insertSorted, if_pos hle]
      simp only [List.mem_cons, ih]
      try tauto
    · rw [insertSorted, if_neg hle]
      simp only [List.mem_cons]
      try tauto

theorem mem_sortByCreated (dateOf : JSValue → Option Int) (l : List JSValue) (z : JSValue) :
    z ∈ sortByCreated dateOf l ↔ z ∈ l := by
  unfold sortByCreated
  induction l with
  | nil => simp
  | cons r rest ih =>
    rw [List.foldr_cons, mem_insertSorted, ih, List.mem_cons]

theorem pairwise_insertSorted (le : JSValue → JSValue → Bool)
    (htot : ∀ a b, le a b = false → le b a = true)
    (htrans2 : ∀ y x z, le y x = false → le y z = true → le x z = true)
    (x : JSValue) (l : List JSValue) (h : l.Pairwise (fun a b => le a b = true)) :
    (insertSorted le x l).Pairwise (fun a b => le a b = true) := by
  induction l with
  | nil => simp [insertSorted]
  | cons y ys ih =>
    obtain ⟨hy, hys⟩ := List.pairwise_cons.mp h
    by_cases hle : le y x = true
    · rw [insertSorted, if_pos hle]
      apply List.pairwise_cons.mpr
      constructor
      · intro z hz
        rcases (mem_insertSorted le x z ys).mp hz with hz | hz
        · rw [hz]
          exact hle
        · exact hy z hz
      · exact ih hys
    · rw [insertSorted, if_neg hle]
      apply List.pairwise_cons.mpr
      constructor
      · intro z hz
        have hyx : le y x = false := by
          cases hc : le y x with
          | false => rfl
          | true => exact absurd hc hle
        rcases List.mem_cons.mp hz with hz | hz
        · rw [hz]
          exact htot y x hyx
        · exact htrans2 y x z hyx (hy z hz)
      · exact h

theorem sortCmp_eq (dateOf : JSValue → Option Int) (a b : JSValue) (x y : Int)
    (hA : dateOf (jsOr (getField a "created_at") (.num 0)) = some x)
    (hB : dateOf (jsOr (getField b "created_at") (.num 0)) = some y) :
    sortCmp dateOf a b = x - y := by
  simp [sortCmp, hA, hB]

theorem sortCmp_zero (dateOf : JSValue → Option Int) (a b : JSValue)
    (h : dateOf (jsOr (getField a "created_at") (.num 0)) = none
      ∨ dateOf (jsOr (getField b "created_at") (.num 0)) = none) :
    sortCmp dateOf a b = 0 := by
  rcases h with h | h
  · cases hB : dateOf (jsOr (getField b "created_at") (.num 0)) with
    | some y => simp [sortCmp, h, hB]
    | none => simp [sortCmp, h, hB]
  · cases hA : dateOf (jsOr (getField a "created_at") (.num 0)) with
    | some x => simp [sortCmp, h, hA]
    | none => simp [sortCmp, h, hA]

/-- The insertion-sorted list is pairwise nonpositive under the
comparator. This holds for the model unconditionally because an
unparseable date makes the comparator treat its element as equal to
everything; it transfers to the source only under a parse hypothesis,
since the engine sort is specified only for consistent comparators. -/
theorem pairwise_sortByCreated (dateOf : JSValue → Option Int) (l : List JSValue) :
    (sortByCreated dateOf l).Pairwise (fun a b => sortCmp dateOf a b ≤ 0) := by
  have htot : ∀ a b, decide (sortCmp dateOf a b ≤ 0) = false →
      decide (sortCmp dateOf b a ≤ 0) = true := by
    intro a b hab
    simp only [decide_eq_false_iff_not] at hab
    simp only [decide_eq_true_eq]
    cases hA : dateOf (jsOr (getField a "created_at") (.num 0)) with
    | some x =>
      cases hB : dateOf (jsOr (getField b "created_at") (.num 0)) with
      | some y =>
        rw [sortCmp_eq dateOf a b x y hA hB] at hab
        rw [sortCmp_eq dateOf b a y x hB hA]
        omega
      | none =>
        rw [sortCmp_zero dateOf a b (Or.inr hB)] at hab
        omega
    | none =>
      rw [sortCmp_zero dateOf a b (Or.inl hA)] at hab
      omega
  have htrans2 : ∀ y x z, decide (sortCmp dateOf y x ≤ 0) = false →
      decide (sortCmp dateOf y z ≤ 0) = true → decide (sortCmp dateOf x z ≤ 0) = true := by
    intro y x z hyx hyz
    simp only [decide_eq_false_iff_not] at hyx
    simp only [decide_eq_true_eq] at hyz ⊢
    cases hY : dateOf (jsOr (getField y "created_at") (.num 0)) with
    | some dy =>
      cases hX : dateOf (jsOr (getField x "created_at") (.num 0)) with
      | some dx =>
        rw [sortCmp_eq dateOf y x dy dx hY hX] at hyx
        cases hZ : dateOf (jsOr (getField z "created_at") (.num 0)) with
        | some dz =>
          rw [sortCmp_eq dateOf y z dy dz hY hZ] at hyz
          rw [sortCmp_eq dateOf x z dx dz hX hZ]
          omega
        | none =>
          rw [sortCmp_zero dateOf x z (Or.inr hZ)]
      | none =>
        rw [sortCmp_zero dateOf y x (Or.inr hX)] at hyx
        omega
    | none =>
      rw [sortCmp_zero dateOf y x (Or.inl hY)] at hyx
      omega
  have hsorted : (sortByCreated dateOf l).Pairwise
      (fun a b => decide (sortCmp dateOf a b ≤ 0) = true) := by
    unfold sortByCreated
    induction l with
    | nil => simp
    | cons r rest ih =>
      rw [List.foldr_cons]
      exact pairwise_insertSorted _ htot htrans2 r _ ih
  exact hsorted.imp (fun h => by simpa using h)

theorem mem_filterE (p : JSValue → Except Unit Bool) (l kept : List JSValue)
    (h : filterE p l = .ok kept) (r : JSValue) :
    r ∈ kept ↔ (r ∈ l ∧ p r = .ok true) := by
  induction l generalizing kept with
  | nil =>
    have hk : kept = [] := by
      simp only [filterE] at h
      injection h with h1
      exact h1.symm
    subst hk
    simp
  | cons x rest ih =>
    rw [filterE] at h
    cases hpx : p x with
    | error u =>
      rw [hpx] at h
      exact absurd h (by simp)
    | ok b =>
      rw [hpx] at h
      cases b with
      | true =>
        cases hrest : filterE p rest with
        | ok kept2 =>
          rw [hrest] at h
          have hk : kept = x :: kept2 := by
            injection h with h1
            exact h1.symm
          subst hk
          simp only [List.mem_cons]
          constructor
          · intro hm
            rcases hm with hm | hm
            · exact ⟨Or.inl hm, by rw [hm]; exact hpx⟩
            · obtain ⟨h2, h3⟩ := (ih kept2 hrest).mp hm
              exact ⟨Or.inr h2, h3⟩
          · rintro ⟨hm | hm, hp⟩
            · exact Or.inl hm
            · exact Or.inr ((ih kept2 hrest).mpr ⟨hm, hp⟩)
        | error u =>
          rw [hrest] at h
          exact absurd h (by simp)
      | false =>
        rw [ih kept h]
        simp only [List.mem_cons]
        constructor
        · rintro ⟨hm, hp⟩
          exact ⟨Or.inr hm, hp⟩
        · rintro ⟨hm | hm, hp⟩
          · exfalso
            rw [hm] at hp
            rw [hpx] at hp
            simp at hp
          · exact ⟨hm, hp⟩

theorem filterE_error_iff (p : JSValue → Except Unit Bool) (l : List JSValue) :
    filterE p l = .error () ↔ ∃ r ∈ l, p r = .error () := by
  induction l with
  | nil =>
    simp only [filterE]
    constructor
    · intro h
      exact absurd h (by simp)
    · rintro ⟨r, hr, -⟩
      exact absurd hr (by simp)
  | cons x rest ih =>
    rw [filterE]
    cases hpx : p x with
    | error u =>
      cases u
      constructor
      · intro _
        exact ⟨x, by simp, hpx⟩
      · intro _
        rfl
    | ok b =>
      cases b with
      | true =>
        cases hrest : filterE p rest with
        | ok kept =>
          constructor
          · intro h
            exact absurd h (by simp)
          · rintro ⟨r, hr, herr⟩
            exfalso
            rcases List.mem_cons.mp hr with hr | hr
            · rw [hr] at herr
              rw [hpx] at herr
              simp at herr
            · have : filterE p rest = .error () := ih.mpr ⟨r, hr, herr⟩
              rw [this] at hrest
              simp at hrest
        | error u =>
          cases u
          constructor
          · intro _
            obtain ⟨r, hr, herr⟩ := ih.mp hrest
            exact ⟨r, by simp [hr], herr⟩
          · intro _
            rfl
      | false =>
        rw [ih]
        constructor
        · rintro ⟨r, hr, herr⟩
          exact ⟨r, by simp [hr], herr⟩
        · rintro ⟨r, hr, herr⟩
          rcases List.mem_cons.mp hr with hr | hr
          · exfalso
            rw [hr] at herr
            rw [hpx] at herr
            simp at herr
          · exact ⟨r, hr, herr⟩

/-- A concrete numeric coercion for strings: "600" parses, everything
else is NaN. -/
def cexToNum : String → Option Int := fun s => if s == "600" then some 600 else none

/-- A response with an empty id but a short, harmless, non-blank user
message. -/
def cexFilterResp : JSValue :=
  .obj [("id", .str ""), ("input_content", .arr [.obj [("content", .str "hi")]]),
        ("created_at", .str "2026-01-01T00:00:00.000Z")]

/-- An ordinary surviving follow-up response. -/
def cexGoodResp : JSValue :=
  .obj [("id", .str "g"), ("input_content", .arr [.obj [("content", .str "why?")]]),
        ("created_at", .str "2026-01-01T00:00:00.000Z")]

/-- A response whose first input content is the number 5: truthy but
neither string nor array, so the includes call throws. -/
def cexThrowResp : JSValue :=
  .obj [("id", .str "t"), ("input_content", .arr [.obj [("content", .num 5)]])]

/-- A response whose input_content is a plain object rather than an
array: the optional chain still reads a non-blank string content, but
the message loop's strict extraction yields the empty string. -/
def cexNonArrResp : JSValue :=
  .obj [("id", .str "n"),
        ("input_content", .obj [("0", .obj [("content", .str "hello")])]),
        ("created_at", .str "2026-01-01T00:00:00.000Z")]

/-- C7 counterexample, three independent failures of the claimed iff
plus the length coercion. First, a response with an empty (falsy) id,
not the current response, with a 2-character clean content, is dropped
by the filter and the timeline built from it alone is empty. Second,
one response whose first input content is a truthy non-string makes the
filter callback throw, emptying the whole timeline and excluding a
co-listed response that passes every condition of the claim. Third, a
response whose input_content is not an array is kept by the filter yet
emitted nowhere, because the strict extraction of the message loop
yields a blank user content. Last, an object content with a string
length field "600" is excluded through the coercing length
comparison. -/
theorem chat_filter_counterexample :
    (keepResp cexToNum (.str "current") cexFilterResp = .ok false
      ∧ jsStrictEq (getField cexFilterResp "id") (.str "current") = false
      ∧ jsLenGt cexToNum (jsOr (optChainContent cexFilterResp) (.str "")) 500 = false
      ∧ jsIncludes (jsOr (optChainContent cexFilterResp) (.str "")) "Clone" = .ok false
      ∧ strictUserContent cexFilterResp = "hi"
      ∧ jsTrim (strictUserContent cexFilterResp) ≠ ""
      ∧ loadTimeline cexToNum cexDateOf 0 "2026-01-01T00:00:00.000Z" (fun _ => .fail)
          (.str "current") (.arr [cexFilterResp]) = [])
    ∧ (keepResp cexToNum (.str "current") cexGoodResp = .ok true
      ∧ keepResp cexToNum (.str "current") cexThrowResp = .error ()
      ∧ chatResponses cexToNum cexDateOf (.str "current")
          (.arr [cexGoodResp, cexThrowResp]) = .error ()
      ∧ loadTimeline cexToNum cexDateOf 0 "2026-01-01T00:00:00.000Z" (fun _ => .fail)
          (.str "current") (.arr [cexGoodResp, cexThrowResp]) = [])
    ∧ (keepResp cexToNum (.str "current") cexNonArrResp = .ok true
      ∧ strictUserContent cexNonArrResp = ""
      ∧ loadTimeline cexToNum cexDateOf 0 "2026-01-01T00:00:00.000Z" (fun _ => .fail)
          (.str "current") (.arr [cexNonArrResp]) = [])
    ∧ jsLenGt cexToNum (.obj [("length", .str "600")]) 500 = true := by
  refine ⟨⟨rfl, rfl, rfl, rfl, rfl, by decide, rfl⟩, ⟨rfl, rfl, rfl, rfl⟩,
    ⟨rfl, rfl, rfl⟩, rfl⟩

theorem jsIncludes_consistent (v : JSValue) (n1 n2 : String) (b : Bool)
    (h : jsIncludes v n1 = .ok b) : ∃ b2, jsIncludes v n2 = .ok b2 := by
  cases v with
  | str s => exact ⟨_, rfl⟩
  | arr xs => exact ⟨_, rfl⟩
  | null => simp [jsIncludes] at h
  | undefined => simp [jsIncludes] at h
  | bool b0 => simp [jsIncludes] at h
  | num n => simp [jsIncludes] at h
  | obj fs => simp [jsIncludes] at h

theorem chatResponses_arr (toNum : String → Option Int) (dateOf : JSValue → Option Int)
    (currentId : JSValue) (rs : List JSValue) :
    chatResponses toNum dateOf currentId (.arr rs) =
      (match filterE (keepResp toNum currentId) rs with
        | .ok kept => Except.ok (sortByCreated dateOf kept)
        | .error u => Except.error u) := rfl

/-- C7 amended: when the history filter completes without throwing, a
fetched response survives into the sorted list exactly when it passes
the filter, whose conditions are the falsy and current-id drops, the
coercing length bound of 500 and the two marker substrings; the filter
throws (and then the whole load aborts with an empty timeline) exactly
when some fetched response carries a truthy non-string, non-array first
input content; the message loop emits a user/agent pair exactly for
surviving responses whose strict user content is non-blank; and the
surviving responses are pairwise ascending by created_at whenever their
dates parse (an unparseable date yields a NaN comparator result, which
ECMAScript treats as equality, leaving the relative order
implementation-defined). -/
theorem chat_timeline_amended :
    (∀ (toNum : String → Option Int) (dateOf : JSValue → Option Int) (currentId : JSValue)
        (rs kept : List JSValue),
      chatResponses toNum dateOf currentId (.arr rs) = .ok kept →
      ∀ r, (r ∈ kept ↔ (r ∈ rs ∧ keepResp toNum currentId r = .ok true)))
    ∧ (∀ (toNum : String → Option Int) (dateOf : JSValue → Option Int) (currentId : JSValue)
        (rs : List JSValue),
        chatResponses toNum dateOf currentId (.arr rs) = .error ()
          ↔ ∃ r ∈ rs, keepResp toNum currentId r = .error ())
    ∧ (∀ (toNum : String → Option Int) (dateOf : JSValue → Option Int) (now : Int)
        (nowIso : String) (stateFetch : JSValue → FetchResult) (currentId : JSValue)
        (payload : JSValue),
        chatResponses toNum dateOf currentId payload = .error () →
        loadTimeline toNum dateOf now nowIso stateFetch currentId payload = [])
    ∧ (∀ (toNum : String → Option Int) (cid r : JSValue),
        keepResp toNum cid r = .error () ↔
          (truthy r = true ∧ truthy (getField r "id") = true
            ∧ jsStrictEq (getField r "id") cid = false
            ∧ jsLenGt toNum (jsOr (optChainContent r) (.str "")) 500 = false
            ∧ jsIncludes (jsOr (optChainContent r) (.str "")) "Clone" = .error ()))
    ∧ (∀ (toNum : String → Option Int) (cid r : JSValue),
        keepResp toNum cid r = .ok true ↔
          (truthy r = true ∧ truthy (getField r "id") = true
            ∧ jsStrictEq (getField r "id") cid = false
            ∧ jsLenGt toNum (jsOr (optChainContent r) (.str "")) 500 = false
            ∧ (jsIncludes (jsOr (optChainContent r) (.str "")) "Clone" = .ok false
              ∨ (jsIncludes (jsOr (optChainContent r) (.str "")) "Clone" = .ok true
                ∧ jsIncludes (jsOr (optChainContent r) (.str "")) "**Step 1:"
                    = .ok false))))
    ∧ (∀ (dateOf : JSValue → Option Int) (now : Int) (nowIso : String)
        (stateFetch : JSValue → FetchResult) (l : List JSValue),
        buildMessages dateOf now nowIso stateFetch l
          = (l.filter loopKeep).flatMap
              (fun r => [mkUserMsg nowIso r, mkAgentMsg dateOf now nowIso (stateFetch r) r]))
    ∧ (∀ (toNum : String → Option Int) (dateOf : JSValue → Option Int) (currentId : JSValue)
        (rs kept : List JSValue),
        chatResponses toNum dateOf currentId (.arr rs) = .ok kept →
        (∀ r ∈ kept, (dateOf (jsOr (getField r "created_at") (.num 0))).isSome = true) →
        kept.Pairwise (fun a b => sortCmp dateOf a b ≤ 0)) := by
  refine ⟨?_, ?_, ?_, ?_, ?_, ?_, ?_⟩
  · intro toNum dateOf currentId rs kept h r
    rw [chatResponses_arr] at h
    cases hf : filterE (keepResp toNum currentId) rs with
    | ok kf =>
      rw [hf] at h
      have hk : kept = sortByCreated dateOf kf := by
        injection h with h1
        exact h1.symm
      subst hk
      rw [mem_sortByCreated]
      exact mem_filterE _ _ _ hf r
    | error u =>
      rw [hf] at h
      exact absurd h (by simp)
  · intro toNum dateOf currentId rs
    rw [chatResponses_arr]
    cases hf : filterE (keepResp toNum currentId) rs with
    | ok kf =>
      constructor
      · intro h
        exact absurd h (by simp)
      · intro h
        exfalso
        have : filterE (keepResp toNum currentId) rs = .error () :=
          (filterE_error_iff _ _).mpr h
        rw [this] at hf
        simp at hf
    | error u =>
      cases u
      constructor
      · intro _
        exact (filterE_error_iff _ _).mp hf
      · intro _
        rfl
  · intro toNum dateOf now nowIso stateFetch currentId payload h
    unfold loadTimeline
    rw [h]
  · intro toNum cid r
    unfold keepResp
    cases h1 : truthy r with
    | false => simp [h1]
    | true =>
      simp only [h1, Bool.not_true, Bool.true_and]
      cases h2 : truthy (getField r "id") with
      | false => simp [h2]
      | true =>
        simp only [h2, Bool.not_true, Bool.true_and]
        cases h3 : jsStrictEq (getField r "id") cid with
        | true => simp [h3]
        | false =>
          simp only [h3, Bool.not_false, Bool.true_and]
          cases h4 : jsLenGt toNum (jsOr (optChainContent r) (.str "")) 500 with
          | true => simp [h4]
          | false =>
            simp only [h4, Bool.not_false, Bool.true_and]
            cases h5 : jsIncludes (jsOr (optChainContent r) (.str "")) "Clone" with
            | error u =>
              cases u
              simp [h5]
            | ok b1 =>
              cases b1 with
              | true =>
                simp only [h5]
                cases h6 : jsIncludes (jsOr (optChainContent r) (.str "")) "**Step 1:" with
                | error u =>
                  cases u
                  exfalso
                  obtain ⟨b2, hb2⟩ := jsIncludes_consistent _ "Clone" "**Step 1:" _ h5
                  rw [h6] at hb2
                  simp at hb2
                | ok b2 =>
                  cases b2 with
                  | true => simp [h6]
                  | false => simp [h6]
              | false => simp [h5]
  · intro toNum cid r
    unfold keepResp
    cases h1 : truthy r with
    | false => simp [h1]
    | true =>
      simp only [h1, Bool.not_true, Bool.true_and]
      cases h2 : truthy (getField r "id") with
      | false => simp [h2]
      | true =>
        simp only [h2, Bool.not_true, Bool.true_and]
        cases h3 : jsStrictEq (getField r "id") cid with
        | true => simp [h3]
        | false =>
          simp only [h3, Bool.not_false, Bool.true_and]
          cases h4 : jsLenGt toNum (jsOr (optChainContent r) (.str "")) 500 with
          | true => simp [h4]
          | false =>
            simp only [h4, Bool.not_false, Bool.true_and]
            cases h5 : jsIncludes (jsOr (optChainContent r) (.str "")) "Clone" with
            | error u =>
              cases u
              simp [h5]
            | ok b1 =>
              cases b1 with
              | true =>
                simp only [h5]
                cases h6 : jsIncludes (jsOr (optChainContent r) (.str "")) "**Step 1:" with
                | error u =>
                  cases u
                  simp [h6]
                | ok b2 =>
                  cases b2 with
                  | true => simp [h6]
                  | false => simp [h6]
              | false => simp [h5]
  · intro dateOf now nowIso stateFetch l
    induction l with
    | nil => rfl
    | cons r rest ih =>
      cases h : loopKeep r with
      | true =>
        rw [buildMessages, if_pos h, ih, List.filter_cons, if_pos h, List.flatMap_cons]
        rfl
      | false =>
        rw [buildMessages, if_neg (by simp [h]), ih, List.filter_cons, if_neg (by simp [h])]
  · intro toNum dateOf currentId rs kept h hd
    rw [chatResponses_arr] at h
    cases hf : filterE (keepResp toNum currentId) rs with
    | ok kf =>
      rw [hf] at h
      have hk : kept = sortByCreated dateOf kf := by
        injection h with h1
        exact h1.symm
      subst hk
      exact pairwise_sortByCreated dateOf kf
    | error u =>
      rw [hf] at h
      exact absurd h (by simp)

/-- Witness for C7 amended at concrete inputs: membership for a
surviving response, sortedness of its singleton list (with the parse
hypothesis discharged), and the empty timeline after a throwing
filter. -/
theorem chat_timeline_amended_witness :
    (cexGoodResp ∈ [cexGoodResp] ↔
      (cexGoodResp ∈ [cexGoodResp] ∧ keepResp cexToNum (.str "current") cexGoodResp = .ok true))
    ∧ ([cexGoodResp] : List JSValue).Pairwise (fun a b => sortCmp cexDateOf a b ≤ 0)
    ∧ loadTimeline cexToNum cexDateOf 0 "2026-01-01T00:00:00.000Z" (fun _ => .fail)
        (.str "current") (.arr [cexGoodResp, cexThrowResp]) = [] := by
  refine ⟨?_, ?_, ?_⟩
  · exact chat_timeline_amended.1 cexToNum cexDateOf (.str "current") [cexGoodResp]
      [cexGoodResp] rfl cexGoodResp
  · refine chat_timeline_amended.2.2.2.2.2.2 cexToNum cexDateOf (.str "current") [cexGoodResp]
      [cexGoodResp] rfl ?_
    intro r hr
    rw [List.mem_singleton] at hr
    subst hr
    rfl
  · exact chat_timeline_amended.2.2.1 cexToNum cexDateOf 0 "2026-01-01T00:00:00.000Z"
      (fun _ => .fail) (.str "current") (.arr [cexGoodResp, cexThrowResp]) rfl


/-- One automaton step for the user/agent pairing check. The state is
the content of a user message still awaiting its reply, when any: a
fresh user message opens an expectation (a second user message while one
is open is a pairing violation); an agent message closes it when it
carries the same content; an error message closes it unconditionally;
agent and error messages with no open expectation pass freely. -/
def umStep (exp : Option String) (m : Msg) : Option (Option String) :=
  match exp, m.type with
  | none, .user => some (some m.content)
  | none, .agent => some none
  | none, .error => some none
  | some c, .agent => if m.content == c then some none else none
  | some _, .error => some none
  | some _, .user => none

/-- Run of the pairing automaton over a message list. -/
def umRun : List Msg → Option String → Option (Option String)
  | [], exp => some exp
  | m :: rest, exp =>
    match umStep exp m with
    | some e => umRun rest e
    | none => none

/-- The pairing property of the claim: every user message is followed by
a matching agent message (same content, carrying the reply) or by an
error message, except that, while a submission is in flight, the last
message may be a still-unanswered user message. -/
def userMatched (ms : List Msg) (pending : Bool) : Bool :=
  match umRun ms none with
  | some none => true
  | some (some _) => pending
  | none => false

/-- The chat state at mount. -/
def chatInit : ChatState :=
  { messages := [], historyLoaded := false, sending := false, inflight := none,
    currentId := .null, polling := false }

/-- The transitions of the chat timeline: history load success (replaces
the message list with the built pairs; the filter must not have thrown)
and failure (a non-ok fetch or the catch that swallows a filter throw,
both of which only latch the loaded flag and leave the messages alone),
the three phases of handleChatSubmit (append the user message and
capture it; on success append the agent message and start polling; on
failure append the error message), and one chat poll tick. Guards
mirror the source: history loads only once, a submit needs a non-blank
input and no submission in flight, a poll tick needs the polling flag
and a truthy tracked id. -/
inductive ChatStep : ChatState → ChatState → Prop where
  | loadOk (st : ChatState) (toNum : String → Option Int) (dateOf : JSValue → Option Int)
      (now : Int) (nowIso : String) (stateFetch : JSValue → FetchResult)
      (currentId : JSValue) (payload : JSValue) (kept : List JSValue)
      (h : st.historyLoaded = false)
      (hkept : chatResponses toNum dateOf currentId payload = .ok kept) :
      ChatStep st { st with
        messages := buildMessages dateOf now nowIso stateFetch kept,
        historyLoaded := true }
  | loadFail (st : ChatState) (h : st.historyLoaded = false) :
      ChatStep st { st with historyLoaded := true }
  | submitStart (st : ChatState) (input : String) (userMsgId nowIso : String)
      (hmsg : jsTrim input ≠ "") (hsend : st.sending = false) :
      ChatStep st { st with
        messages := st.messages ++
          [{ id := .str userMsgId, type := .user, content := jsTrim input,
             timestamp := .str nowIso, response := none, status := none, agentState := none }],
        sending := true,
        inflight := some (jsTrim input) }
  | submitOk (st : ChatState) (resp : JSValue) (nowIso : String) (c : String)
      (hsend : st.sending = true) (hc : st.inflight = some c) :
      ChatStep st { st with
        messages := st.messages ++
          [{ id := getField resp "id", type := .agent, content := c,
             timestamp := .str nowIso, response := some resp,
             status := some (getField resp "status"), agentState := none }],
        sending := false,
        inflight := none,
        currentId := getField resp "id",
        polling := true }
  | submitFail (st : ChatState) (errId nowIso : String) (hsend : st.sending = true) :
      ChatStep st { st with
        messages := st.messages ++
          [{ id := .str errId, type := .error,
             content := "Failed to send message. Please try again.",
             timestamp := .str nowIso, response := none, status := none, agentState := none }],
        sending := false,
        inflight := none }
  | pollTick (st : ChatState) (fetch stateFetch : FetchResult)
      (hpoll : st.polling = true) (hcid : truthy st.currentId = true) :
      ChatStep st (chatPollTick false st fetch stateFetch).1

/-- A chat state reachable from mount. -/
def ChatReachable (st : ChatState) : Prop :=
  Relation.ReflTransGen ChatStep chatInit st

theorem umRun_append (l1 l2 : List Msg) (exp : Option String) :
    umRun (l1 ++ l2) exp =
      match umRun l1 exp with
      | some e => umRun l2 e
      | none => none := by
  induction l1 generalizing exp with
  | nil => rfl
  | cons m rest ih =>
    rw [List.cons_append, umRun, umRun]
    cases umStep exp m with
    | some e => exact ih e
    | none => rfl

theorem busyTimeoutUpdate_preserves (cid data : JSValue) (m : Msg) :
    (busyTimeoutUpdate cid data m).type = m.type
    ∧ (busyTimeoutUpdate cid data m).content = m.content := by
  unfold busyTimeoutUpdate
  by_cases h : jsStrictEq m.id cid = true
  · rw [if_pos h]
    exact ⟨rfl, rfl⟩
  · rw [if_neg h]
    exact ⟨rfl, rfl⟩

theorem statusUpdate_preserves (cid data : JSValue) (m : Msg) :
    (statusUpdate cid data m).type = m.type
    ∧ (statusUpdate cid data m).content = m.content := by
  unfold statusUpdate
  by_cases h : jsStrictEq m.id cid = true
  · rw [if_pos h]
    exact ⟨rfl, rfl⟩
  · rw [if_neg h]
    exact ⟨rfl, rfl⟩

theorem umRun_map_preserve (f : Msg → Msg)
    (hf : ∀ m, (f m).type = m.type ∧ (f m).content = m.content) (l : List Msg)
    (exp : Option String) : umRun (l.map f) exp = umRun l exp := by
  induction l generalizing exp with
  | nil => rfl
  | cons m rest ih =>
    rw [List.map_cons, umRun, umRun]
    have hstep : umStep exp (f m) = umStep exp m := by
      unfold umStep
      rw [(hf m).1, (hf m).2]
    rw [hstep]
    cases umStep exp m with
    | some e => exact ih e
    | none => rfl

theorem umRun_buildMessages (dateOf : JSValue → Option Int) (now : Int) (nowIso : String)
    (stateFetch : JSValue → FetchResult) (l : List JSValue) :
    umRun (buildMessages dateOf now nowIso stateFetch l) none = some none := by
  induction l with
  | nil => rfl
  | cons r rest ih =>
    cases h : loopKeep r with
    | true =>
      rw [buildMessages, if_pos h]
      have h1 : umStep none (mkUserMsg nowIso r) = some (some (strictUserContent r)) := rfl
      have h2 : umStep (some (strictUserContent r))
          (mkAgentMsg dateOf now nowIso (stateFetch r) r) = some none := by
        show (if (mkAgentMsg dateOf now nowIso (stateFetch r) r).content
            == strictUserContent r then some none else none) = some none
        rw [show (mkAgentMsg dateOf now nowIso (stateFetch r) r).content
          = strictUserContent r from rfl]
        simp
      rw [umRun, h1]
      show umRun (mkAgentMsg dateOf now nowIso (stateFetch r) r
        :: buildMessages dateOf now nowIso stateFetch rest) (some (strictUserContent r))
        = some none
      rw [umRun, h2]
      show umRun (buildMessages dateOf now nowIso stateFetch rest) none = some none
      exact ih
    | false =>
      rw [buildMessages, if_neg (by simp [h])]
      exact ih

theorem chatPollTick_shape (st : ChatState) (fetch stateFetch : FetchResult) :
    (chatPollTick false st fetch stateFetch).1.sending = st.sending
    ∧ (chatPollTick false st fetch stateFetch).1.inflight = st.inflight
    ∧ umRun (chatPollTick false st fetch stateFetch).1.messages none
        = umRun st.messages none := by
  cases fetch with
  | fail => exact ⟨rfl, rfl, rfl⟩
  | ok body =>
    by_cases ht : truthy (normalizeResponse body) = true
    · by_cases hp : pendingProcessingCheck (getField (normalizeResponse body) "status") = true
      · by_cases hs : sleptCheck stateFetch = true
        · have hred : chatPollTick false st (.ok body) stateFetch
              = (chatBusyState st (normalizeResponse body), true) := by
            simp [chatPollTick, ht, hp, hs]
          rw [hred]
          exact ⟨rfl, rfl,
            umRun_map_preserve _ (busyTimeoutUpdate_preserves st.currentId _) st.messages none⟩
        · have hred : chatPollTick false st (.ok body) stateFetch
              = (chatGeneralUpdate st (normalizeResponse body), true) := by
            simp [chatPollTick, ht, hp, hs]
          rw [hred]
          exact ⟨rfl, rfl,
            umRun_map_preserve _ (statusUpdate_preserves st.currentId _) st.messages none⟩
      · have hred : chatPollTick false st (.ok body) stateFetch
            = (chatGeneralUpdate st (normalizeResponse body), false) := by
          simp [chatPollTick, ht, hp]
        rw [hred]
        exact ⟨rfl, rfl,
          umRun_map_preserve _ (statusUpdate_preserves st.currentId _) st.messages none⟩
    · have hred : chatPollTick false st (.ok body) stateFetch = (st, false) := by
        simp [chatPollTick, ht]
      rw [hred]
      exact ⟨rfl, rfl, rfl⟩

/-- The pairing invariant carried through every transition: the pairing
automaton never fails on the message list, and an open expectation can
exist only while a submission is in flight, matching the captured
content. -/
def ChatInv (st : ChatState) : Prop :=
  ∃ e, umRun st.messages none = some e
    ∧ (e = none ∨ (st.sending = true ∧ ∃ c, e = some c ∧ st.inflight = some c))

theorem chatStep_preserves {st st' : ChatState} (h : ChatStep st st') (hinv : ChatInv st) :
    ChatInv st' := by
  obtain ⟨e, he, hor⟩ := hinv
  cases h with
  | loadOk toNum dateOf now nowIso stateFetch currentId payload kept hload hkept =>
    refine ⟨none, ?_, Or.inl rfl⟩
    exact umRun_buildMessages dateOf now nowIso stateFetch kept
  | loadFail hload =>
    exact ⟨e, he, hor⟩
  | submitStart input userMsgId nowIso hmsg hsend =>
    have hen : e = none := by
      rcases hor with h1 | h1
      · exact h1
      · rw [hsend] at h1
        exact absurd h1.1 (by simp)
    subst hen
    refine ⟨some (jsTrim input), ?_, Or.inr ⟨rfl, jsTrim input, rfl, rfl⟩⟩
    rw [umRun_append, he]
    rfl
  | submitOk resp nowIso c hsend hc =>
    rcases hor with h1 | h1
    · subst h1
      refine ⟨none, ?_, Or.inl rfl⟩
      rw [umRun_append, he]
      rfl
    · obtain ⟨-, c0, hec, hic⟩ := h1
      subst hec
      have hcc : c0 = c := by
        rw [hc] at hic
        injection hic with hh
        exact hh.symm
      subst hcc
      refine ⟨none, ?_, Or.inl rfl⟩
      rw [umRun_append, he]
      show umRun [_] (some c0) = some none
      rw [umRun]
      have hstep : umStep (some c0)
          { id := getField resp "id", type := .agent, content := c0,
            timestamp := .str nowIso, response := some resp,
            status := some (getField resp "status"), agentState := none } = some none := by
        show (if c0 == c0 then some none else none) = some none
        simp
      rw [hstep]
      rfl
  | submitFail errId nowIso hsend =>
    rcases hor with h1 | h1
    · subst h1
      refine ⟨none, ?_, Or.inl rfl⟩
      rw [umRun_append, he]
      rfl
    · obtain ⟨-, c0, hec, -⟩ := h1
      subst hec
      refine ⟨none, ?_, Or.inl rfl⟩
      rw [umRun_append, he]
      rfl
  | pollTick fetch stateFetch hpoll hcid =>
    obtain ⟨hsend2, hinf2, hrun2⟩ := chatPollTick_shape st fetch stateFetch
    refine ⟨e, by rw [hrun2, he], ?_⟩
    rcases hor with h1 | h1
    · exact Or.inl h1
    · refine Or.inr ⟨by rw [hsend2, h1.1], ?_⟩
      obtain ⟨c0, hec, hic⟩ := h1.2
      exact ⟨c0, hec, by rw [hinf2, hic]⟩

theorem chatReachable_inv {st : ChatState} (h : ChatReachable st) : ChatInv st := by
  induction h with
  | refl => exact ⟨none, rfl, Or.inl rfl⟩
  | tail hsteps hstep ih => exact chatStep_preserves hstep ih

/-- C9: in every reachable chat timeline, every user message is followed
by its matching agent message (same content, carrying the reply) or by
an error message from a failed submission; the only unanswered user
message possible is the final one, and only while its submission is
still in flight. -/
theorem chat_user_pairing (st : ChatState) (h : ChatReachable st) :
    userMatched st.messages st.sending = true := by
  obtain ⟨e, he, hor⟩ := chatReachable_inv h
  unfold userMatched
  rw [he]
  rcases hor with h1 | h1
  · rw [h1]
  · obtain ⟨hs, c0, hec, -⟩ := h1
    rw [hec, hs]

/-- The concrete states of the C9 witness: load failure, a submission of
the message hi, and its failure. -/
def wState1 : ChatState :=
  { messages := [], historyLoaded := true, sending := false, inflight := none,
    currentId := .null, polling := false }

def wUserMsg : Msg :=
  { id := .str "100", type := .user, content := "hi", timestamp := .str "t1",
    response := none, status := none, agentState := none }

def wErrMsg : Msg :=
  { id := .str "101", type := .error, content := "Failed to send message. Please try again.",
    timestamp := .str "t2", response := none, status := none, agentState := none }

def wState2 : ChatState :=
  { messages := [wUserMsg], historyLoaded := true, sending := true, inflight := some "hi",
    currentId := .null, polling := false }

def wState3 : ChatState :=
  { messages := [wUserMsg, wErrMsg], historyLoaded := true, sending := false,
    inflight := none, currentId := .null, polling := false }

/-- Witness for C9 at a concrete reachable state: after a failed history
load, submitting hi and seeing the submission fail, the timeline is the
user message followed by the error message, accepted by the pairing
predicate. -/
theorem chat_user_pairing_witness :
    userMatched wState3.messages wState3.sending = true := by
  have h1 : ChatStep chatInit wState1 := ChatStep.loadFail chatInit rfl
  have h2 : ChatStep wState1 wState2 :=
    ChatStep.submitStart wState1 "hi" "100" "t1" (by decide) rfl
  have h3 : ChatStep wState2 wState3 := ChatStep.submitFail wState2 "101" "t2" rfl
  exact chat_user_pairing wState3
    (Relation.ReflTransGen.tail
      (Relation.ReflTransGen.tail (Relation.ReflTransGen.single h1) h2) h3)
